import Mathlib

/-!
Shallow embedding of the Geni workspace store (`src/store/index.ts`) together
with the drag-and-drop move resolution (`src/components/DragDropWrapper.tsx`)
and the sidebar request-loading handler (`src/components/Sidebar.tsx`).

JavaScript records (`Record<string, T>`) are modelled as insertion-ordered
association lists with JS object-spread / computed-key-assignment semantics;
string truthiness (`""` and `undefined`/`null` are falsy) is modelled
explicitly; `Array.prototype.findIndex` returning `-1` and negative indexing
are modelled over `Int`.  Asynchronous store actions become pure state
transformers parametrized by the backend call's result; the recursive
functions of the source that have no structural termination argument
(`getCollectionAuthHeaders`, `getDescendantIds`) are embedded with explicit
fuel, `none` meaning the recursion did not complete within the given fuel.
-/

namespace Geni

/-! ## Definitions -/

/-- Truthiness of `string | undefined | null`: absent and `""` are falsy. -/
def strTruthy : Option String → Bool
  | none => false
  | some s => s ≠ ""

/-- JS `a || b` on `string | undefined` values. -/
def jsOr (a b : Option String) : Option String :=
  if strTruthy a then a else b

/-- JS `x || null` on a `string | undefined` value: a falsy string becomes `null`. -/
def strOrNull (a : Option String) : Option String :=
  if strTruthy a then a else none

/-- JS array indexing `xs[i]` with an `Int` index: out-of-range (including
negative) yields `undefined`. -/
def jsIndex (l : List α) (i : Int) : Option α :=
  if i < 0 then none else l[i.toNat]?

/-- JS `Array.prototype.findIndex`: index of the first match, `-1` if none. -/
def jsFindIndex (l : List α) (p : α → Bool) : Int :=
  match l.findIdx? p with
  | some n => (n : Int)
  | none => -1

/-- Property read `o[k]`. -/
def recordGet (o : List (String × α)) (k : String) : Option α :=
  (o.find? (fun p => p.1 = k)).map (fun p => p.2)

/-- Property write `o[k] = v` (also `{...o, [k]: v}`): overwrite in place when
the key is present, append otherwise. -/
def recordSet (o : List (String × α)) (k : String) (v : α) : List (String × α) :=
  if o.any (fun p => p.1 = k) then
    o.map (fun p => if p.1 = k then (k, v) else p)
  else
    o ++ [(k, v)]

/-- `delete o[k]`. -/
def recordDelete (o : List (String × α)) (k : String) : List (String × α) :=
  o.filter (fun p => p.1 ≠ k)

/-- The `Json?: any` body variant, modelled by its serialized text: the store
never constructs or inspects the payload, it only passes it between the editor
and the backend call. -/
def JsonValue := String
deriving DecidableEq

/-- `BasicAuth`. -/
structure BasicAuth where
  username : String
  password : String
deriving DecidableEq

/-- `BearerAuth`. -/
structure BearerAuth where
  token : String
deriving DecidableEq

/-- `AuthConfig`; `type` ranges over the strings "none" / "basic" / "bearer". -/
structure AuthConfig where
  type : String
  basic : Option BasicAuth := none
  bearer : Option BearerAuth := none
deriving DecidableEq

/-- `FormDataField`. -/
inductive FormDataField where
  | Text : String → FormDataField
  | File : String → FormDataField
deriving DecidableEq

/-- `RequestBody`: the record of optional mutually-exclusive variants,
exactly as the source declares it. -/
structure RequestBody where
  Raw : Option (String × String) := none
  Json : Option JsonValue := none
  FormData : Option (List (String × FormDataField)) := none
  UrlEncoded : Option (List (String × String)) := none
deriving DecidableEq

/-- `HttpRequest`; `headers` is a string-keyed record. -/
structure HttpRequest where
  id : Option String := none
  name : String
  method : String
  url : String
  headers : List (String × String)
  body : Option RequestBody := none
  path_params : Option (List (String × String)) := none
  collection_id : Option String := none
  created_at : Option String := none
  updated_at : Option String := none
deriving DecidableEq

/-- `HttpResponse` (timing and size as naturals; their values never feed back
into the state logic). -/
structure HttpResponse where
  status : Nat
  status_text : String
  headers : List (String × String)
  body : String
  formatted_body : Option String := none
  highlighted_body : Option String := none
  response_time : Nat
  size : Nat
  content_type : Option String := none
deriving DecidableEq

/-- `Collection`. -/
structure Collection where
  id : String
  name : String
  description : Option String := none
  parent_id : Option String := none
  auth : Option AuthConfig := none
  created_at : String := ""
  updated_at : String := ""
deriving DecidableEq

/-- `Environment`. -/
structure Environment where
  id : String
  name : String
  variables' : List (String × String)
  is_active : Bool
  created_at : String := ""
  updated_at : String := ""
deriving DecidableEq

/-- `RequestHistory`. -/
structure RequestHistory where
  id : String
  request : HttpRequest
  response : Option HttpResponse := none
  timestamp : String
deriving DecidableEq

/-- `Tab`. -/
structure Tab where
  id : String
  name : String
  request : HttpRequest
  response : Option HttpResponse := none
  loading : Bool
  saved : Bool
deriving DecidableEq

/-- `AppState`: the zustand store's state slice. -/
structure AppState where
  activeTabId : Option String
  tabs : List Tab
  sidebarCollapsed : Bool
  selectedCollectionId : Option String
  collections : List Collection
  environments : List Environment
  activeEnvironment : Option Environment
  history : List RequestHistory
  collectionRequests : List (String × List HttpRequest)
  collectionsLoading : Bool
  environmentsLoading : Bool
  historyLoading : Bool
  collectionRequestsLoading : List (String × Bool)
deriving DecidableEq

/-- `createNewRequest`. -/
def createNewRequest : HttpRequest :=
  { name := "New Request"
    method := "GET"
    url := "https://"
    headers := []
    body := none }

/-- Base64 alphabet used by `btoa`. -/
def base64Chars : List Char :=
  "ABCDEFGHIJKLMNOPQRSTUVWXYZabcdefghijklmnopqrstuvwxyz0123456789+/".toList

/-- One base64 output character. -/
def b64Char (n : Nat) : Char := base64Chars.getD n 'A'

/-- Base64-encode a byte sequence, with `=`-padding. -/
def b64Encode : List Nat → List Char
  | [] => []
  | [b1] =>
      [b64Char (b1 / 4), b64Char (b1 % 4 * 16), '=', '=']
  | [b1, b2] =>
      [b64Char (b1 / 4), b64Char (b1 % 4 * 16 + b2 / 16), b64Char (b2 % 16 * 4), '=']
  | b1 :: b2 :: b3 :: rest =>
      b64Char (b1 / 4) :: b64Char (b1 % 4 * 16 + b2 / 16) ::
        b64Char (b2 % 16 * 4 + b3 / 64) :: b64Char (b3 % 64) :: b64Encode rest

/-- `btoa`, over the string's code points (ASCII-faithful). -/
def btoa (s : String) : String :=
  String.mk (b64Encode (s.toList.map Char.toNat))

/-- `generateAuthHeaders` (lines 196-218): derive an `Authorization` header
from an auth config; any field left empty yields no header. -/
def generateAuthHeaders (auth : Option AuthConfig) : List (String × String) :=
  match auth with
  | none => []
  | some a =>
    if a.type = "none" then []
    else if a.type = "basic" then
      match a.basic with
      | some b =>
          if b.username ≠ "" ∧ b.password ≠ "" then
            [("Authorization", "Basic " ++ btoa (b.username ++ ":" ++ b.password))]
          else []
      | none => []
    else if a.type = "bearer" then
      match a.bearer with
      | some b =>
          if b.token ≠ "" then [("Authorization", "Bearer " ++ b.token)] else []
      | none => []
    else []

/-- `getCollectionAuthHeaders` (lines 220-243), with explicit fuel: the source
recurses on `parent_id` with no visited-set or depth guard, so the embedding
returns `none` when the recursion does not complete within `fuel` steps. -/
def getCollectionAuthHeadersF (collections : List Collection) :
    Nat → Option String → Option (List (String × String))
  | 0, _ => none
  | fuel + 1, collectionId =>
    if ¬ strTruthy collectionId then some []
    else
      match collections.find? (fun c => some c.id = collectionId) with
      | none => some []
      | some collection =>
        let currentAuthHeaders := generateAuthHeaders collection.auth
        if currentAuthHeaders.length > 0 then some currentAuthHeaders
        else if strTruthy collection.parent_id then
          getCollectionAuthHeadersF collections fuel collection.parent_id
        else some []

/-- `mergeHeaders` (lines 245-251): `{...authHeaders, ...requestHeaders}` —
request headers take precedence over auth headers. -/
def mergeHeaders (requestHeaders authHeaders : List (String × String)) :
    List (String × String) :=
  requestHeaders.foldl (fun acc p => recordSet acc p.1 p.2) authHeaders

/-- The headers handed to the `send_request` backend call
(`sendRequest`, lines 618-625): collection auth headers merged under the
request's own headers. -/
def sendRequestHeadersF (fuel : Nat) (collections : List Collection)
    (request : HttpRequest) : Option (List (String × String)) :=
  (getCollectionAuthHeadersF collections fuel request.collection_id).map
    (fun authHeaders => mergeHeaders request.headers authHeaders)

/-- `addTab` (lines 274-294).  The locally generated id is a parameter; the
`request` argument models the `Partial<HttpRequest>` the callers pass (always
a full request shape or absent). -/
def addTab (s : AppState) (id : String) (request : Option HttpRequest)
    (collectionId : Option String) : AppState :=
  let newRequest : HttpRequest :=
    match request with
    | none => { createNewRequest with collection_id := jsOr collectionId none }
    | some r => { r with collection_id := jsOr collectionId r.collection_id }
  let newTab : Tab :=
    { id := id
      name := newRequest.name
      request := newRequest
      response := none
      loading := false
      saved := strTruthy newRequest.id }
  { s with tabs := s.tabs ++ [newTab], activeTabId := some id }

/-- `closeTab` (lines 296-316). -/
def closeTab (s : AppState) (tabId : String) : AppState :=
  let newTabs := s.tabs.filter (fun tab => tab.id ≠ tabId)
  let newActiveTabId :=
    if s.activeTabId = some tabId then
      if newTabs.length > 0 then
        let currentIndex := jsFindIndex s.tabs (fun tab => tab.id = tabId)
        let nextIndex := min currentIndex ((newTabs.length : Int) - 1)
        strOrNull ((jsIndex newTabs nextIndex).map Tab.id)
      else none
    else s.activeTabId
  { s with tabs := newTabs, activeTabId := newActiveTabId }

/-- `setActiveTab` (lines 318-320). -/
def setActiveTab (s : AppState) (tabId : Option String) : AppState :=
  { s with activeTabId := tabId }

/-- The payload of the `move_collection` backend call (lines 374-377):
`newParentId || null`. -/
structure MoveCollectionCall where
  collectionId : String
  newParentId : Option String
deriving DecidableEq

/-- `moveCollection`'s backend invocation payload. -/
def moveCollectionCall (collectionId : String) (newParentId : Option String) :
    MoveCollectionCall :=
  { collectionId := collectionId, newParentId := strOrNull newParentId }

/-- `moveCollection` (lines 372-385), success path: the backend call is made
unconditionally and on success the collection list is reloaded wholesale
(`loadCollections`), which finally leaves `collectionsLoading = false`. -/
def moveCollectionOk (s : AppState) (reloaded : List Collection) : AppState :=
  { s with collections := reloaded, collectionsLoading := false }

/-- `getDescendantIds` (lines 393-402, local to `deleteCollection`), with
explicit fuel: the source recursion has no cycle guard, so the embedding
returns `none` when it does not complete within `fuel` steps. -/
def getDescendantIdsF (collections : List Collection) :
    Nat → String → Option (List String)
  | 0, _ => none
  | fuel + 1, parentId =>
    let children := collections.filter (fun c => c.parent_id = some parentId)
    match children.mapM (fun child => getDescendantIdsF collections fuel child.id) with
    | none => none
    | some rs => some (parentId :: rs.flatten)

/-- `deleteCollection` (lines 387-450), success path.  All six updates are
computed inside the single `set` callback from one `getDescendantIds`
snapshot. -/
def deleteCollectionOk (s : AppState) (id : String) : Option AppState :=
  match getDescendantIdsF s.collections (s.collections.length + 1) id with
  | none => none
  | some deletedCollectionIds =>
    let remainingCollections := s.collections.filter
      (fun c => ¬ deletedCollectionIds.contains c.id)
    let newCollectionRequests := deletedCollectionIds.foldl
      (fun m collectionId => recordDelete m collectionId) s.collectionRequests
    let newTabs := s.tabs.filter (fun tab =>
      ¬ strTruthy tab.request.collection_id ∨
        ¬ deletedCollectionIds.contains (tab.request.collection_id.getD ""))
    let newActiveTabId :=
      if strTruthy s.activeTabId ∧
          (newTabs.find? (fun tab => some tab.id = s.activeTabId)).isNone then
        match newTabs with
        | [] => none
        | t :: _ => some t.id
      else s.activeTabId
    let newSelected :=
      if deletedCollectionIds.contains (s.selectedCollectionId.getD "") then none
      else s.selectedCollectionId
    some { s with collections := remainingCollections,
                  collectionRequests := newCollectionRequests,
                  tabs := newTabs,
                  activeTabId := newActiveTabId,
                  selectedCollectionId := newSelected }

/-- `sendRequest` (lines 606-652), parametrized by the backend call's result.
The returned `Bool` records whether the error was re-thrown; the outer `none`
marks divergence of the collection-auth resolution before the backend call. -/
def sendRequestF (fuel : Nat) (s : AppState) (tabId : String)
    (result : Except String HttpResponse) : Option (AppState × Bool) :=
  match s.tabs.find? (fun t => t.id = tabId) with
  | none => some (s, false)
  | some tab =>
    let loadingTabs := s.tabs.map (fun t : Tab =>
      if t.id = tabId then { t with loading := true } else t)
    let s1 := { s with tabs := loadingTabs }
    match getCollectionAuthHeadersF s.collections fuel tab.request.collection_id with
    | none => none
    | some _authHeaders =>
      match result with
      | Except.ok response =>
          let doneTabs := s1.tabs.map (fun t : Tab =>
            if t.id = tabId then { t with response := some response, loading := false }
            else t)
          some ({ s1 with tabs := doneTabs }, false)
      | Except.error _ =>
          let failTabs := s1.tabs.map (fun t : Tab =>
            if t.id = tabId then { t with loading := false } else t)
          some ({ s1 with tabs := failTabs }, true)

/-- `loadCollectionRequests` (lines 754-796), parametrized by the backend
result; the failure path clears the per-collection loading flag and does not
re-throw. -/
def loadCollectionRequestsF (s : AppState) (collectionId : String)
    (result : Except String (List HttpRequest)) : AppState :=
  let loading1 := recordSet s.collectionRequestsLoading collectionId true
  let s1 := { s with collectionRequestsLoading := loading1 }
  match result with
  | Except.ok requests =>
      let cache2 := recordSet s1.collectionRequests collectionId requests
      let loading2 := recordSet s1.collectionRequestsLoading collectionId false
      { s1 with collectionRequests := cache2, collectionRequestsLoading := loading2 }
  | Except.error _ =>
      let loading2 := recordSet s1.collectionRequestsLoading collectionId false
      { s1 with collectionRequestsLoading := loading2 }

/-- `deleteRequest` (lines 802-851), success path. -/
def deleteRequestOk (s : AppState) (requestId : String)
    (collectionId : Option String) : AppState :=
  let s1 :=
    if strTruthy collectionId then
      let cid := collectionId.getD ""
      let filtered := ((recordGet s.collectionRequests cid).getD []).filter
        (fun request => ¬ request.id = some requestId)
      { s with collectionRequests := recordSet s.collectionRequests cid filtered }
    else s
  let newTabs := s1.tabs.filter (fun tab => ¬ tab.request.id = some requestId)
  let newActiveTabId :=
    if s1.tabs.any (fun tab =>
        tab.request.id = some requestId ∧ some tab.id = s1.activeTabId) then
      if newTabs.length > 0 then
        let currentIndex := jsFindIndex s1.tabs (fun tab => some tab.id = s1.activeTabId)
        let nextIndex := min currentIndex ((newTabs.length : Int) - 1)
        strOrNull ((jsIndex newTabs nextIndex).map Tab.id)
      else none
    else s1.activeTabId
  { s1 with tabs := newTabs, activeTabId := newActiveTabId }

/-- `moveRequest` (lines 853-904), success path: remove the request from the
first cache bucket listing it, append it (with updated `collection_id`) to the
target bucket, and patch every open tab holding it. -/
def moveRequestOk (s : AppState) (requestId newCollectionId : String) : AppState :=
  match s.collectionRequests.find? (fun p => p.2.any (fun r => r.id = some requestId)) with
  | none => s
  | some (collectionId, requests) =>
    match requests.find? (fun r => r.id = some requestId) with
    | none => s
    | some movedRequest =>
      let removed := requests.filter (fun r => ¬ r.id = some requestId)
      let ucr := recordSet s.collectionRequests collectionId removed
      let moved := { movedRequest with collection_id := some newCollectionId }
      let target := ((recordGet ucr newCollectionId).getD []) ++ [moved]
      let ucr2 := recordSet ucr newCollectionId target
      let newTabs := s.tabs.map (fun tab : Tab =>
        if tab.request.id = some requestId then
          { tab with request := { tab.request with collection_id := some newCollectionId } }
        else tab)
      { s with collectionRequests := ucr2, tabs := newTabs }

/-- `renameRequest` (lines 906-949), success path: the bucket scan stops at
the first bucket listing the request (`break`); every open tab holding the
request is renamed, in the same `set` transition. -/
def renameRequestOk (s : AppState) (requestId name : String) : AppState :=
  let ucr :=
    match s.collectionRequests.find? (fun p => p.2.any (fun r => r.id = some requestId)) with
    | none => s.collectionRequests
    | some (collectionId, requests) =>
        let renamed := requests.map (fun request : HttpRequest =>
          if request.id = some requestId then { request with name := name } else request)
        recordSet s.collectionRequests collectionId renamed
  let newTabs := s.tabs.map (fun tab : Tab =>
    if tab.request.id = some requestId then
      { tab with name := name, request := { tab.request with name := name } }
    else tab)
  { s with collectionRequests := ucr, tabs := newTabs }

/-- `handleLoadRequest`: switch to an existing tab holding the same request
id, otherwise open a new tab (the fresh local id is a parameter). -/
def handleLoadRequest (s : AppState) (newTabId : String) (request : HttpRequest) :
    AppState :=
  match s.tabs.find? (fun tab => tab.request.id = request.id) with
  | some existingTab => { s with activeTabId := some existingTab.id }
  | none => addTab s newTabId (some request) none

/-- The `over` element of a `DragEndEvent`: its id, its `data.current?.type`,
and its `data.current?.collectionId`. -/
structure DragOver where
  id : String
  type : Option String
  collectionId : Option String
deriving DecidableEq

/-- A `DragEndEvent`, reduced to the fields the handler reads. -/
structure DragEndEvent where
  activeId : String
  activeType : Option String
  over : Option DragOver
deriving DecidableEq

/-- What the drag-end handler forwards to the store: a collection move, a
request move, or nothing. -/
inductive DragAction where
  | noop : DragAction
  | collectionMove : String → Option String → DragAction
  | requestMove : String → String → DragAction
deriving DecidableEq

/-- Hexadecimal digit test for the UUID check. -/
def isHexDigit (c : Char) : Bool :=
  ('0' ≤ c ∧ c ≤ '9') ∨ ('a' ≤ c ∧ c ≤ 'f') ∨ ('A' ≤ c ∧ c ≤ 'F')

/-- Split a character list at each `-`, keeping empty groups — the grouping
the UUID regex anchors crosscheck. -/
def splitOnDash : List Char → List (List Char)
  | [] => [[]]
  | c :: cs =>
      if c = '-' then [] :: splitOnDash cs
      else
        match splitOnDash cs with
        | [] => [[c]]
        | g :: gs => (c :: g) :: gs

/-- `isValidUUID` (lines 170-174): the 8-4-4-4-12 hex shape, or the literal
sentinel `root`. -/
def isValidUUID (s : String) : Bool :=
  (match splitOnDash s.toList with
   | [a, b, c, d, e] =>
       a.length == 8 && b.length == 4 && c.length == 4 && d.length == 4 &&
       e.length == 12 && (a ++ b ++ c ++ d ++ e).all isHexDigit
   | _ => false) || s == "root"

/-- `createDragEndHandler`'s decision logic (lines 155-236), with both move
callbacks provided, reduced to the action it forwards to the store. -/
def dragEndAction (e : DragEndEvent) : DragAction :=
  match e.over with
  | none => DragAction.noop
  | some over =>
    if e.activeId = over.id then DragAction.noop
    else if ¬ isValidUUID e.activeId then DragAction.noop
    else if e.activeType = some "collection" then
      let newParentId :=
        if over.type = some "collection" ∧ isValidUUID over.id then some over.id
        else if strTruthy over.collectionId ∧ isValidUUID (over.collectionId.getD "") then
          over.collectionId
        else none
      DragAction.collectionMove e.activeId newParentId
    else if e.activeType = some "request" then
      let targetCollectionId :=
        if strTruthy over.collectionId then
          (if isValidUUID (over.collectionId.getD "") then over.collectionId.getD ""
           else "root")
        else if over.type = some "collection" ∧ isValidUUID over.id then over.id
        else "root"
      if ¬ isValidUUID targetCollectionId then DragAction.noop
      else DragAction.requestMove e.activeId targetCollectionId
    else DragAction.noop

/-- `x` is `root` itself or a transitive child of `root` in the collection
forest (the intended meaning of `descendantIds`). -/
inductive IsDesc (collections : List Collection) (root : String) : String → Prop where
  | refl : IsDesc collections root root
  | step {p : String} {c : Collection} : IsDesc collections root p →
      c ∈ collections → c.parent_id = some p → IsDesc collections root c.id

/-- `ids` is a parent chain `[B, …, A]` through the collection list in which
every collection before the last defines no usable auth: the shape on which
auth inheritance resolves to the last element. -/
def isAncestorChain (cols : List Collection) : List String → Bool
  | [] => false
  | [_] => true
  | x :: y :: rest =>
      match cols.find? (fun c => some c.id = some x) with
      | some c =>
          decide (generateAuthHeaders c.auth = []) && (c.parent_id == some y) &&
            (y != "") && isAncestorChain cols (y :: rest)
      | none => false

/-- The collection-auth resolution never completes, whatever the fuel: the
embedding's rendering of the source recursion diverging. -/
def AuthResolutionDiverges (collections : List Collection)
    (collectionId : Option String) : Prop :=
  ∀ fuel, getCollectionAuthHeadersF collections fuel collectionId = none

/-- A small base state all concrete witnesses start from. -/
def baseState : AppState :=
  { activeTabId := none
    tabs := []
    sidebarCollapsed := false
    selectedCollectionId := none
    collections := []
    environments := []
    activeEnvironment := none
    history := []
    collectionRequests := []
    collectionsLoading := false
    environmentsLoading := false
    historyLoading := false
    collectionRequestsLoading := [] }

/-- Concrete response for the C9 witness. -/
def c9resp : HttpResponse :=
  { status := 200, status_text := "OK", headers := [], body := "ok"
    response_time := 1, size := 2 }

/-- Concrete one-tab state for the C9 witness. -/
def c9s : AppState :=
  { baseState with
      activeTabId := some "t1"
      tabs := [{ id := "t1", name := "n", request := createNewRequest,
                 loading := true, saved := false }] }

/-- The success-path run of `sendRequest` on the C9 witness state. -/
def c9out : AppState × Bool :=
  (sendRequestF 1 c9s "t1" (Except.ok c9resp)).getD (baseState, false)

/-- Concrete tabs for the C4 witness. -/
def c4t1 : Tab :=
  { id := "t1", name := "n", request := createNewRequest, loading := false, saved := false }

def c4t2 : Tab :=
  { id := "t2", name := "n", request := createNewRequest, loading := false, saved := false }

def c4t3 : Tab :=
  { id := "t3", name := "n", request := createNewRequest, loading := false, saved := false }

/-- Three open tabs, the middle one active, for the C4 witness. -/
def c4s : AppState :=
  { baseState with tabs := [c4t1, c4t2, c4t3], activeTabId := some "t2" }

/-- The active-tab pointer is `null` or the id of some open tab. -/
def ActiveTabOk (s : AppState) : Prop :=
  s.activeTabId = none ∨ ∃ t ∈ s.tabs, s.activeTabId = some t.id

instance (s : AppState) : Decidable (ActiveTabOk s) := by
  unfold ActiveTabOk; infer_instance

/-- Every open tab has a nonempty (truthy) id, as `generateId` produces. -/
def TabIdsNonempty (s : AppState) : Prop :=
  ∀ t ∈ s.tabs, t.id ≠ ""

instance (s : AppState) : Decidable (TabIdsNonempty s) := by
  unfold TabIdsNonempty; infer_instance

/-- A collection, a tab holding a request of that collection with the empty
string as its (locally generated) tab id, and that empty id as the active tab
pointer: formally a state satisfying the invariant. -/
def c10bad : AppState :=
  { baseState with
      activeTabId := some ""
      tabs := [{ id := "", name := "n",
                 request := { createNewRequest with collection_id := some "c1" },
                 loading := false, saved := false }]
      collections := [{ id := "c1", name := "C" }] }

/-- The result of deleting the collection in `c10bad`. -/
def c10out : AppState := (deleteCollectionOk c10bad "c1").getD baseState

/-- A root collection, for the C1 counterexample. -/
def c1parent : Collection :=
  { id := "aaaaaaaa-aaaa-aaaa-aaaa-aaaaaaaaaaaa", name := "P" }

/-- A direct child of `c1parent`, for the C1 counterexample. -/
def c1child : Collection :=
  { id := "bbbbbbbb-bbbb-bbbb-bbbb-bbbbbbbbbbbb", name := "C",
    parent_id := some "aaaaaaaa-aaaa-aaaa-aaaa-aaaaaaaaaaaa" }

/-- The drop target of the C1 drag event. -/
def c1over : DragOver :=
  { id := "bbbbbbbb-bbbb-bbbb-bbbb-bbbbbbbbbbbb"
    type := some "collection"
    collectionId := none }

/-- The drag event dropping `c1parent` onto its own child. -/
def c1event : DragEndEvent :=
  { activeId := "aaaaaaaa-aaaa-aaaa-aaaa-aaaaaaaaaaaa"
    activeType := some "collection"
    over := some c1over }

/-- Parent collection for the C2 witness. -/
def c2p : Collection := { id := "p1", name := "P" }

/-- Child collection for the C2 witness. -/
def c2ch : Collection := { id := "ch1", name := "Ch", parent_id := some "p1" }

/-- An unrelated collection for the C2 witness. -/
def c2z : Collection := { id := "z1", name := "Z" }

/-- A state with a two-node subtree, an unrelated collection, caches for all
three, tabs pointing in and out of the subtree, and a selection inside it. -/
def c2s : AppState :=
  { baseState with
      collections := [c2p, c2ch, c2z]
      collectionRequests :=
        [("p1", [{ createNewRequest with id := some "rp", collection_id := some "p1" }]),
         ("ch1", [{ createNewRequest with id := some "rc", collection_id := some "ch1" }]),
         ("z1", [{ createNewRequest with id := some "rz", collection_id := some "z1" }])]
      tabs :=
        [{ id := "t1", name := "n",
           request := { createNewRequest with collection_id := some "ch1" },
           loading := false, saved := true },
         { id := "t2", name := "n", request := createNewRequest,
           loading := false, saved := false },
         { id := "t3", name := "n",
           request := { createNewRequest with collection_id := some "z1" },
           loading := false, saved := true }]
      activeTabId := some "t1"
      selectedCollectionId := some "ch1" }

/-- The snapshot the witness deletion computes. -/
def c2D : List String :=
  (getDescendantIdsF c2s.collections (c2s.collections.length + 1) "p1").getD []

/-- The state after the witness deletion. -/
def c2out : AppState := (deleteCollectionOk c2s "p1").getD baseState

/-- The cached request list of a collection (`collectionRequests[id] || []`). -/
def bucketOf (s : AppState) (k : String) : List HttpRequest :=
  (recordGet s.collectionRequests k).getD []

/-- The request being moved in the C6 witness. -/
def c6R : HttpRequest :=
  { createNewRequest with id := some "r1", collection_id := some "c1" }

/-- Another request sharing the source bucket in the C6 witness. -/
def c6other : HttpRequest :=
  { createNewRequest with id := some "r9", collection_id := some "c1" }

/-- A request already in the target bucket in the C6 witness. -/
def c6y : HttpRequest :=
  { createNewRequest with id := some "r5", collection_id := some "c2" }

/-- Two-bucket cache state for the C6 witness. -/
def c6s : AppState :=
  { baseState with collectionRequests := [("c1", [c6R, c6other]), ("c2", [c6y])] }

/-- Ancestor collection with a bearer token, for the C3 witness. -/
def c3A : Collection :=
  { id := "a1", name := "A",
    auth := some { type := "bearer", bearer := some { token := "T" } } }

/-- Child collection with no auth, for the C3 witness. -/
def c3B : Collection :=
  { id := "b1", name := "B", parent_id := some "a1" }

/-- A request in `c3B` carrying its own `Authorization` header. -/
def c3req : HttpRequest :=
  { createNewRequest with collection_id := some "b1",
                          headers := [("Authorization", "X")] }

/-- One half of a corrupted two-cycle of collections, neither with usable auth. -/
def c8cyc1 : Collection := { id := "c1", name := "c1", parent_id := some "c2" }

/-- The other half of the corrupted two-cycle. -/
def c8cyc2 : Collection := { id := "c2", name := "c2", parent_id := some "c1" }

/-- A request cached in two different buckets under the same id: states of
this shape are what the first-bucket `break` in `renameRequest` misses. -/
def c7req1 : HttpRequest :=
  { createNewRequest with id := some "r1", name := "old", collection_id := some "c1" }

def c7req2 : HttpRequest :=
  { createNewRequest with id := some "r1", name := "old", collection_id := some "c2" }

def c7bad : AppState :=
  { baseState with collectionRequests := [("c1", [c7req1]), ("c2", [c7req2])] }

/-- A persisted request for the C5 witness. -/
def c5req : HttpRequest := { createNewRequest with id := some "r1" }

/-- A one-bucket, one-tab state for the C7 witness. -/
def c7good : AppState :=
  { baseState with
      collectionRequests := [("c1", [c7req1])]
      tabs := [{ id := "t1", name := "old", request := c7req1,
                 loading := false, saved := true }] }

/-! ## Theorems -/

/-! ## Insertion-ordered string-keyed records

`Record<string, T>` with the object semantics the store relies on:
property read, computed-key assignment / object spread with a single
overriding key (which overwrites in place if the key exists, else appends),
and `delete obj[key]`. -/

theorem find?_congrOn (l : List α) (p q : α → Bool) (h : ∀ x ∈ l, p x = q x) :
    l.find? p = l.find? q := by
  induction l with
  | nil => rfl
  | cons a t ih =>
    have ha := h a (List.mem_cons_self a t)
    by_cases hp : p a = true
    · rw [List.find?_cons_of_pos t hp, List.find?_cons_of_pos t (ha ▸ hp)]
    · rw [List.find?_cons_of_neg t hp, List.find?_cons_of_neg t (ha ▸ hp),
        ih (fun x hx => h x (List.mem_cons_of_mem a hx))]

theorem recordGet_set_self (o : List (String × α)) (k : String) (v : α) :
    recordGet (recordSet o k v) k = some v := by
  unfold recordGet recordSet
  by_cases h : o.any (fun p => p.1 = k)
  · rw [if_pos h, List.find?_map]
    obtain ⟨p, hp, hpk⟩ := List.any_eq_true.mp h
    simp only [decide_eq_true_eq] at hpk
    have hfind : o.find? ((fun p => decide (p.1 = k)) ∘
          fun p => if p.1 = k then (k, v) else p) =
        o.find? (fun p => p.1 = k) := by
      apply find?_congrOn
      intro q _
      by_cases hq : q.1 = k <;> simp [Function.comp, hq]
    rw [hfind]
    obtain ⟨q, hq⟩ : ∃ q, o.find? (fun p => p.1 = k) = some q := by
      cases hfq : o.find? (fun p => p.1 = k) with
      | none =>
        exact absurd (List.find?_eq_none.mp hfq p hp (by simp [hpk])) (fun c => c)
      | some q => exact ⟨q, rfl⟩
    have hqk : q.1 = k := by simpa using List.find?_some hq
    simp [hq, hqk]
  · rw [if_neg h, List.find?_append]
    have hnone : o.find? (fun p => p.1 = k) = none := by
      rw [List.find?_eq_none]
      intro p hp hq
      exact h (List.any_eq_true.mpr ⟨p, hp, hq⟩)
    rw [hnone]
    simp [List.find?]

theorem recordGet_set_other (o : List (String × α)) (k k' : String) (v : α)
    (h : k' ≠ k) : recordGet (recordSet o k v) k' = recordGet o k' := by
  unfold recordGet recordSet
  by_cases ha : o.any (fun p => p.1 = k)
  · rw [if_pos ha, List.find?_map]
    have hfind : o.find? ((fun p => decide (p.1 = k')) ∘
          fun p => if p.1 = k then (k, v) else p) =
        o.find? (fun p => p.1 = k') := by
      apply find?_congrOn
      intro q _
      by_cases hq : q.1 = k
      · simp [Function.comp, hq, Ne.symm h, fun c : q.1 = k' => h (hq ▸ c.symm)]
      · simp [Function.comp, hq]
    rw [hfind]
    cases hfq : o.find? (fun p => p.1 = k') with
    | none => simp
    | some q =>
      have hqk : q.1 = k' := by simpa using List.find?_some hfq
      have hqne : ¬ q.1 = k := fun c => h (by rw [← hqk, c])
      simp [hqne]
  · rw [if_neg ha, List.find?_append]
    cases hfq : o.find? (fun p => p.1 = k') with
    | none => simp [List.find?, Ne.symm h]
    | some q => simp

/-! ## Helper lemmas -/

theorem strOrNull_some_of_ne {s : String} (h : s ≠ "") :
    strOrNull (some s) = some s := by
  simp [strOrNull, strTruthy, h]

theorem jsIndex_ofNat (l : List α) (n : Nat) :
    jsIndex l ((n : Nat) : Int) = l[n]? := by
  simp [jsIndex]

/-- A member of a `map` over a conditional per-id update that has the matched
id comes from an element that matched the condition. -/
theorem mem_map_ite_eq_id (tabs : List Tab) (tabId : String) (upd : Tab → Tab)
    (u : Tab) (hu : u ∈ tabs.map (fun t => if t.id = tabId then upd t else t))
    (hid : u.id = tabId) : ∃ t ∈ tabs, t.id = tabId ∧ u = upd t := by
  obtain ⟨t, ht, rfl⟩ := List.mem_map.mp hu
  by_cases h : t.id = tabId
  · exact ⟨t, ht, h, by simp [h]⟩
  · rw [if_neg h] at hid
    exact absurd hid h

/-- The same, keyed on the held request's id instead of the tab id. -/
theorem mem_map_ite_reqid (tabs : List Tab) (r : String) (upd : Tab → Tab)
    (u : Tab) (hu : u ∈ tabs.map (fun t => if t.request.id = some r then upd t else t))
    (hid : u.request.id = some r) :
    ∃ t ∈ tabs, t.request.id = some r ∧ u = upd t := by
  obtain ⟨t, ht, rfl⟩ := List.mem_map.mp hu
  by_cases h : t.request.id = some r
  · exact ⟨t, ht, h, by simp [h]⟩
  · rw [if_neg h] at hid
    exact absurd hid h

/-! ## Claim C9 -/

/-- C9: for every tab id present in the tab list, `sendRequest` leaves that
tab's loading flag false after the backend call resolves, on both the success
and the failure path (on failure the error is re-thrown but loading is still
cleared); `loadCollectionRequests` clears the per-collection loading flag on
both success and failure. -/
theorem loading_cleared_on_both_paths (fuel : Nat) (s : AppState) (tabId : String)
    (result : Except String HttpResponse) (s' : AppState) (thrown : Bool)
    (htab : ∃ t ∈ s.tabs, t.id = tabId)
    (hrun : sendRequestF fuel s tabId result = some (s', thrown))
    (s2 : AppState) (cid : String) (result2 : Except String (List HttpRequest)) :
    (∀ u ∈ s'.tabs, u.id = tabId → u.loading = false) ∧
    (thrown = true ↔ ∃ e, result = Except.error e) ∧
    recordGet (loadCollectionRequestsF s2 cid result2).collectionRequestsLoading cid
      = some false := by
  have main : (∀ u ∈ s'.tabs, u.id = tabId → u.loading = false) ∧
      (thrown = true ↔ ∃ e, result = Except.error e) := by
    obtain ⟨t, ht, htid⟩ := htab
    have hsome : (s.tabs.find? (fun t => t.id = tabId)).isSome :=
      List.find?_isSome.mpr ⟨t, ht, by simp [htid]⟩
    cases hf : s.tabs.find? (fun t => t.id = tabId) with
    | none => rw [hf] at hsome; simp at hsome
    | some tab =>
      cases ha : getCollectionAuthHeadersF s.collections fuel tab.request.collection_id with
      | none => simp only [sendRequestF, hf, ha] at hrun; exact absurd hrun (by simp)
      | some ah =>
        cases result with
        | ok response =>
          simp only [sendRequestF, hf, ha, Option.some.injEq, Prod.mk.injEq] at hrun
          obtain ⟨hs, hthr⟩ := hrun
          constructor
          · intro u hu hid
            rw [← hs] at hu
            obtain ⟨t0, _, _, hut⟩ := mem_map_ite_eq_id _ tabId _ u hu hid
            rw [hut]
          · simp [← hthr]
        | error e =>
          simp only [sendRequestF, hf, ha, Option.some.injEq, Prod.mk.injEq] at hrun
          obtain ⟨hs, hthr⟩ := hrun
          constructor
          · intro u hu hid
            rw [← hs] at hu
            obtain ⟨t0, _, _, hut⟩ := mem_map_ite_eq_id _ tabId _ u hu hid
            rw [hut]
          · simp [← hthr]
  refine ⟨main.1, main.2, ?_⟩
  cases result2 with
  | ok requests => simp [loadCollectionRequestsF, recordGet_set_self]
  | error e => simp [loadCollectionRequestsF, recordGet_set_self]

/-! ## Claim C10 -/

/-- The neighbour lookup `newTabs[nextIndex]?.id || null` either yields `null`
or the id of a member of the list. -/
theorem strOrNull_jsIndex_ok (l : List Tab) (i : Int) :
    strOrNull ((jsIndex l i).map Tab.id) = none ∨
    ∃ u ∈ l, strOrNull ((jsIndex l i).map Tab.id) = some u.id := by
  cases hj : jsIndex l i with
  | none => left; rfl
  | some u =>
    have hu : u ∈ l := by
      unfold jsIndex at hj
      by_cases hi : i < 0
      · rw [if_pos hi] at hj; cases hj
      · rw [if_neg hi] at hj; exact List.getElem?_mem hj
    by_cases hne : u.id = ""
    · left; simp [strOrNull, strTruthy, hne]
    · right; exact ⟨u, hu, by simp [strOrNull_some_of_ne hne]⟩

theorem addTab_activeOk (s : AppState) (id : String) (req : Option HttpRequest)
    (cid : Option String) :
    (addTab s id req cid).activeTabId = some id ∧ ActiveTabOk (addTab s id req cid) := by
  refine ⟨rfl, Or.inr ?_⟩
  unfold addTab
  exact ⟨_, List.mem_append_right _ (List.mem_singleton.mpr rfl), rfl⟩

theorem addTab_idsOk (s : AppState) (id : String) (req : Option HttpRequest)
    (cid : Option String) (hid : id ≠ "") (h : TabIdsNonempty s) :
    TabIdsNonempty (addTab s id req cid) := by
  intro t ht
  rcases List.mem_append.mp ht with h1 | h2
  · exact h t h1
  · rw [List.mem_singleton.mp h2]; exact hid

theorem closeTab_activeOk (s : AppState) (tabId : String) (h : ActiveTabOk s) :
    ActiveTabOk (closeTab s tabId) := by
  have hact : (closeTab s tabId).activeTabId =
      (if s.activeTabId = some tabId then
        if (s.tabs.filter (fun u => u.id ≠ tabId)).length > 0 then
          strOrNull ((jsIndex (s.tabs.filter (fun u => u.id ≠ tabId))
            (min (jsFindIndex s.tabs (fun u => u.id = tabId))
              (((s.tabs.filter (fun u => u.id ≠ tabId)).length : Int) - 1))).map Tab.id)
        else none
      else s.activeTabId) := rfl
  have htabs : (closeTab s tabId).tabs = s.tabs.filter (fun u => u.id ≠ tabId) := rfl
  unfold ActiveTabOk
  rw [hact, htabs]
  by_cases he : s.activeTabId = some tabId
  · rw [if_pos he]
    by_cases hl : (s.tabs.filter (fun u => u.id ≠ tabId)).length > 0
    · rw [if_pos hl]
      rcases strOrNull_jsIndex_ok (s.tabs.filter (fun u => u.id ≠ tabId))
          (min (jsFindIndex s.tabs (fun u => u.id = tabId))
            (((s.tabs.filter (fun u => u.id ≠ tabId)).length : Int) - 1)) with h0 | ⟨u, hu, h1⟩
      · exact Or.inl h0
      · exact Or.inr ⟨u, hu, h1⟩
    · rw [if_neg hl]; exact Or.inl rfl
  · rw [if_neg he]
    rcases h with h0 | ⟨t, ht, hta⟩
    · exact Or.inl h0
    · refine Or.inr ⟨t, List.mem_filter.mpr ⟨ht, ?_⟩, hta⟩
      simp only [decide_eq_true_eq]
      intro hc
      exact he (hta.trans (by rw [hc]))

theorem tabsFilter_idsOk (s : AppState) (p : Tab → Bool) (h : TabIdsNonempty s) :
    ∀ t ∈ s.tabs.filter p, t.id ≠ "" :=
  fun t ht => h t (List.mem_of_mem_filter ht)

theorem deleteRequestOk_proj (s : AppState) (requestId : String) (cid : Option String) :
    (deleteRequestOk s requestId cid).tabs =
      s.tabs.filter (fun tab => ¬ tab.request.id = some requestId) ∧
    (deleteRequestOk s requestId cid).activeTabId =
      (if s.tabs.any (fun tab =>
          tab.request.id = some requestId ∧ some tab.id = s.activeTabId) then
        if (s.tabs.filter (fun tab => ¬ tab.request.id = some requestId)).length > 0 then
          strOrNull ((jsIndex (s.tabs.filter (fun tab => ¬ tab.request.id = some requestId))
            (min (jsFindIndex s.tabs (fun tab => some tab.id = s.activeTabId))
              (((s.tabs.filter (fun tab =>
                ¬ tab.request.id = some requestId)).length : Int) - 1))).map Tab.id)
        else none
      else s.activeTabId) := by
  by_cases hc : strTruthy cid
  · unfold deleteRequestOk
    rw [if_pos hc]
    exact ⟨rfl, rfl⟩
  · unfold deleteRequestOk
    rw [if_neg hc]
    exact ⟨rfl, rfl⟩

theorem deleteRequestOk_activeOk (s : AppState) (requestId : String)
    (cid : Option String) (h : ActiveTabOk s) :
    ActiveTabOk (deleteRequestOk s requestId cid) := by
  obtain ⟨htabs, hactive⟩ := deleteRequestOk_proj s requestId cid
  unfold ActiveTabOk
  rw [htabs, hactive]
  by_cases hany : s.tabs.any (fun tab =>
      tab.request.id = some requestId ∧ some tab.id = s.activeTabId)
  · rw [if_pos hany]
    by_cases hl : (s.tabs.filter (fun tab => ¬ tab.request.id = some requestId)).length > 0
    · rw [if_pos hl]
      rcases strOrNull_jsIndex_ok (s.tabs.filter (fun tab => ¬ tab.request.id = some requestId))
          (min (jsFindIndex s.tabs (fun tab => some tab.id = s.activeTabId))
            (((s.tabs.filter (fun tab =>
              ¬ tab.request.id = some requestId)).length : Int) - 1)) with h0 | ⟨u, hu, h1⟩
      · exact Or.inl h0
      · exact Or.inr ⟨u, hu, h1⟩
    · rw [if_neg hl]; exact Or.inl rfl
  · rw [if_neg hany]
    rcases h with h0 | ⟨t, ht, hta⟩
    · exact Or.inl h0
    · refine Or.inr ⟨t, List.mem_filter.mpr ⟨ht, ?_⟩, hta⟩
      simp only [decide_eq_true_eq]
      intro hcid
      exact hany (List.any_eq_true.mpr ⟨t, ht, by simp [hcid, hta.symm]⟩)

theorem deleteCollectionOk_wfOk (s : AppState) (cid : String) (s' : AppState)
    (hrun : deleteCollectionOk s cid = some s')
    (hact : ActiveTabOk s) (hids : TabIdsNonempty s) :
    ActiveTabOk s' ∧ TabIdsNonempty s' := by
  cases hd : getDescendantIdsF s.collections (s.collections.length + 1) cid with
  | none =>
    rw [deleteCollectionOk, hd] at hrun
    cases hrun
  | some D =>
    simp only [deleteCollectionOk, hd, Option.some.injEq] at hrun
    have htabs : s'.tabs = s.tabs.filter (fun tab =>
        ¬ strTruthy tab.request.collection_id ∨
          ¬ D.contains (tab.request.collection_id.getD "")) := by rw [← hrun]
    refine ⟨?_, ?_⟩
    case refine_2 =>
      intro t ht
      rw [htabs] at ht
      exact hids t (List.mem_of_mem_filter ht)
    unfold ActiveTabOk
    by_cases hcond : strTruthy s.activeTabId ∧
        ((s.tabs.filter (fun tab => ¬ strTruthy tab.request.collection_id ∨
          ¬ D.contains (tab.request.collection_id.getD ""))).find?
            (fun tab => some tab.id = s.activeTabId)).isNone
    · have hactP : s'.activeTabId = (match s.tabs.filter (fun tab =>
          ¬ strTruthy tab.request.collection_id ∨
            ¬ D.contains (tab.request.collection_id.getD "")) with
          | [] => none
          | t :: _ => some t.id) := by
        rw [← hrun]
        show (if _ then _ else _) = _
        rw [if_pos hcond]
      cases hnl : s.tabs.filter (fun tab => ¬ strTruthy tab.request.collection_id ∨
          ¬ D.contains (tab.request.collection_id.getD "")) with
      | nil =>
        rw [hnl] at hactP
        exact Or.inl hactP
      | cons t rest =>
        rw [hnl] at hactP
        refine Or.inr ⟨t, ?_, hactP⟩
        rw [htabs, hnl]
        exact List.mem_cons_self t rest
    · have hactP : s'.activeTabId = s.activeTabId := by
        rw [← hrun]
        show (if _ then _ else _) = _
        rw [if_neg hcond]
      rcases hact with h0 | ⟨t, ht, hta⟩
      · exact Or.inl (hactP.trans h0)
      · have hstr : strTruthy s.activeTabId = true := by
          rw [hta]
          simpa [strTruthy] using hids t ht
        have hns : ¬ ((s.tabs.filter (fun tab => ¬ strTruthy tab.request.collection_id ∨
            ¬ D.contains (tab.request.collection_id.getD ""))).find?
              (fun tab => some tab.id = s.activeTabId)).isNone := by
          intro hb
          exact hcond ⟨hstr, hb⟩
        rw [Option.isNone_iff_eq_none, ← ne_eq, Option.ne_none_iff_isSome] at hns
        obtain ⟨u, hu, hup⟩ := List.find?_isSome.mp hns
        have hup' : some u.id = s.activeTabId := by simpa using hup
        refine Or.inr ⟨u, ?_, by rw [hactP]; exact hup'.symm⟩
        rw [htabs]
        exact hu

/-- C10 counterexample: on a state whose active tab has the empty string as id
(possible since `generateId` gives `Math.random().toString(36).substr(2, 9)`,
which is `""` when `Math.random()` returns `0`), `deleteCollection` closes the
tab but leaves the active pointer on the now-closed tab: the truthiness guard
`state.activeTabId && ...` skips the reassignment for the falsy id `""`. -/
theorem activeTab_dangles_cx :
    ActiveTabOk c10bad ∧ deleteCollectionOk c10bad "c1" = some c10out ∧
    ¬ ActiveTabOk c10out := by decide

/-- C10 (amended): assuming every open tab id is nonempty (as `generateId`
produces, apart from the measure-zero `Math.random() = 0` case), an
active-tab pointer that is `null` or the id of an open tab stays so across
`addTab` (which makes the created tab active), `closeTab` with any id,
`deleteRequest`, and successful `deleteCollection`. -/
theorem activeTab_pointer_valid (s : AppState)
    (hact : ActiveTabOk s) (hids : TabIdsNonempty s) :
    (∀ id req cid, (addTab s id req cid).activeTabId = some id ∧
       ActiveTabOk (addTab s id req cid) ∧
       (id ≠ "" → TabIdsNonempty (addTab s id req cid))) ∧
    (∀ tabId, ActiveTabOk (closeTab s tabId) ∧ TabIdsNonempty (closeTab s tabId)) ∧
    (∀ requestId cid, ActiveTabOk (deleteRequestOk s requestId cid) ∧
       TabIdsNonempty (deleteRequestOk s requestId cid)) ∧
    (∀ cid s', deleteCollectionOk s cid = some s' →
       ActiveTabOk s' ∧ TabIdsNonempty s') := by
  refine ⟨?_, ?_, ?_, ?_⟩
  · intro id req cid
    obtain ⟨h1, h2⟩ := addTab_activeOk s id req cid
    exact ⟨h1, h2, fun hid => addTab_idsOk s id req cid hid hids⟩
  · intro tabId
    exact ⟨closeTab_activeOk s tabId hact, tabsFilter_idsOk s _ hids⟩
  · intro requestId cid
    refine ⟨deleteRequestOk_activeOk s requestId cid hact, ?_⟩
    intro t ht
    rw [(deleteRequestOk_proj s requestId cid).1] at ht
    exact tabsFilter_idsOk s _ hids t ht
  · intro cid s' hrun
    exact deleteCollectionOk_wfOk s cid s' hrun hact hids

theorem activeTab_pointer_valid_witness :
    (ActiveTabOk c4s ∧ TabIdsNonempty c4s) ∧
    ((∀ id req cid, (addTab c4s id req cid).activeTabId = some id ∧
        ActiveTabOk (addTab c4s id req cid) ∧
        (id ≠ "" → TabIdsNonempty (addTab c4s id req cid))) ∧
     (∀ tabId, ActiveTabOk (closeTab c4s tabId) ∧ TabIdsNonempty (closeTab c4s tabId)) ∧
     (∀ requestId cid, ActiveTabOk (deleteRequestOk c4s requestId cid) ∧
        TabIdsNonempty (deleteRequestOk c4s requestId cid)) ∧
     (∀ cid s', deleteCollectionOk c4s cid = some s' →
        ActiveTabOk s' ∧ TabIdsNonempty s')) :=
  ⟨⟨by decide, by decide⟩, activeTab_pointer_valid c4s (by decide) (by decide)⟩

/-! ## Claim C4 -/

/-- C4: closing an open tab `t` removes it; when `t` was active the tab at
index `min(old index of t, new length - 1)` of the remaining list becomes
active (`none` when no tabs remain, also when `t` was first or last); when `t`
was not active the active tab id is unchanged. -/
theorem closeTab_active_continuity (s : AppState) (t : Tab)
    (hmem : t ∈ s.tabs) (hids : ∀ u ∈ s.tabs, u.id ≠ "") :
    (closeTab s t.id).tabs = s.tabs.filter (fun u => u.id ≠ t.id) ∧
    (s.activeTabId ≠ some t.id → (closeTab s t.id).activeTabId = s.activeTabId) ∧
    (s.activeTabId = some t.id →
      (closeTab s t.id).activeTabId =
        ((s.tabs.filter (fun u => u.id ≠ t.id))[min (s.tabs.findIdx (fun u => u.id = t.id))
            ((s.tabs.filter (fun u => u.id ≠ t.id)).length - 1)]?).map Tab.id) := by
  have hact : (closeTab s t.id).activeTabId =
      (if s.activeTabId = some t.id then
        if (s.tabs.filter (fun u => u.id ≠ t.id)).length > 0 then
          strOrNull ((jsIndex (s.tabs.filter (fun u => u.id ≠ t.id))
            (min (jsFindIndex s.tabs (fun u => u.id = t.id))
              (((s.tabs.filter (fun u => u.id ≠ t.id)).length : Int) - 1))).map Tab.id)
        else none
      else s.activeTabId) := rfl
  refine ⟨rfl, ?_, ?_⟩
  · intro hne
    rw [hact, if_neg hne]
  · intro heq
    rw [hact, if_pos heq]
    by_cases hnil : s.tabs.filter (fun u => u.id ≠ t.id) = []
    · rw [hnil]
      simp
    · have hlen : 0 < (s.tabs.filter (fun u => u.id ≠ t.id)).length :=
        List.length_pos.mpr hnil
      rw [if_pos hlen]
      have hex : ∃ x ∈ s.tabs, decide (x.id = t.id) = true := ⟨t, hmem, by simp⟩
      have hlt : s.tabs.findIdx (fun u => u.id = t.id) < s.tabs.length :=
        List.findIdx_lt_length_of_exists hex
      have hfi : s.tabs.findIdx? (fun u => u.id = t.id) =
          some (s.tabs.findIdx (fun u => u.id = t.id)) :=
        List.findIdx?_eq_some_iff_findIdx_eq.mpr ⟨hlt, rfl⟩
      have hjs : jsFindIndex s.tabs (fun u => u.id = t.id) =
          ((s.tabs.findIdx (fun u => u.id = t.id) : Nat) : Int) := by
        simp [jsFindIndex, hfi]
      set newTabs := s.tabs.filter (fun u => u.id ≠ t.id) with hnt
      set idx := s.tabs.findIdx (fun u => u.id = t.id) with hidx
      have hsub : ((newTabs.length : Int) - 1) = ((newTabs.length - 1 : Nat) : Int) := by
        omega
      have hminInt : min ((idx : Nat) : Int) ((newTabs.length - 1 : Nat) : Int) =
          ((min idx (newTabs.length - 1) : Nat) : Int) := (Nat.cast_min idx _).symm
      set k := min idx (newTabs.length - 1) with hk
      have hklt : k < newTabs.length := by omega
      have hget : newTabs[k]? = some (newTabs.get ⟨k, hklt⟩) := by
        simp [List.getElem?_eq_getElem hklt]
      have hmemk : newTabs.get ⟨k, hklt⟩ ∈ newTabs := List.get_mem _ _ _
      have hne : (newTabs.get ⟨k, hklt⟩).id ≠ "" :=
        hids _ (List.mem_of_mem_filter hmemk)
      rw [hjs, hsub, hminInt, jsIndex_ofNat, hget]
      have hfin : strOrNull (some (newTabs.get ⟨k, hklt⟩).id) =
          some (newTabs.get ⟨k, hklt⟩).id := strOrNull_some_of_ne hne
      simpa using hfin

theorem closeTab_active_continuity_witness :
    (c4t2 ∈ c4s.tabs ∧ ∀ u ∈ c4s.tabs, u.id ≠ "") ∧
    ((closeTab c4s c4t2.id).tabs = c4s.tabs.filter (fun u => u.id ≠ c4t2.id) ∧
     (c4s.activeTabId ≠ some c4t2.id → (closeTab c4s c4t2.id).activeTabId = c4s.activeTabId) ∧
     (c4s.activeTabId = some c4t2.id →
       (closeTab c4s c4t2.id).activeTabId =
         ((c4s.tabs.filter (fun u => u.id ≠ c4t2.id))[min (c4s.tabs.findIdx (fun u => u.id = c4t2.id))
             ((c4s.tabs.filter (fun u => u.id ≠ c4t2.id)).length - 1)]?).map Tab.id)) :=
  ⟨⟨by decide, by decide⟩,
   closeTab_active_continuity c4s c4t2 (by decide) (by decide)⟩

/-! ## Claim C1 -/

/-- C1 counterexample: dragging a collection onto its own descendant is NOT
rejected before the backend call — the drag-end handler only validates the id
shapes and forwards the `move_collection` call with the descendant as the new
parent. -/
theorem moveCollection_no_cycle_check_cx :
    IsDesc [c1parent, c1child] c1parent.id c1child.id ∧
    c1child.id ≠ c1parent.id ∧
    dragEndAction c1event =
      DragAction.collectionMove c1parent.id (some c1child.id) :=
  ⟨IsDesc.step IsDesc.refl (by decide) rfl, by decide, by decide⟩

/-- C1 (amended): the frontend performs no cycle/descendant check: for a
collection drag with a valid-UUID active id dropped onto a collection target
with a valid-UUID id, the handler always forwards the move with that target as
the new parent — regardless of any descendant relation — and `moveCollection`
passes it to the `move_collection` backend call, after which the local
collection list is not patched but replaced wholesale by the reloaded backend
list. -/
theorem dragEnd_uuid_only_validation (e : DragEndEvent) (over : DragOver)
    (hover : e.over = some over)
    (hne : ¬ e.activeId = over.id)
    (hau : isValidUUID e.activeId = true)
    (hat : e.activeType = some "collection")
    (hot : over.type = some "collection")
    (hou : isValidUUID over.id = true) :
    dragEndAction e = DragAction.collectionMove e.activeId (some over.id) ∧
    moveCollectionCall e.activeId (some over.id) =
      { collectionId := e.activeId, newParentId := strOrNull (some over.id) } ∧
    (∀ (s : AppState) (reloaded : List Collection),
      (moveCollectionOk s reloaded).collections = reloaded) := by
  refine ⟨?_, rfl, fun s reloaded => rfl⟩
  rw [dragEndAction, hover]
  simp only []
  rw [if_neg hne, if_neg (fun h => h hau), if_pos hat, if_pos ⟨hot, hou⟩]

theorem dragEnd_uuid_only_validation_witness :
    (c1event.over = some c1over ∧
     isValidUUID c1event.activeId = true ∧
     c1event.activeType = some "collection") ∧
    (dragEndAction c1event = DragAction.collectionMove c1event.activeId (some c1over.id) ∧
     moveCollectionCall c1event.activeId (some c1over.id) =
       { collectionId := c1event.activeId, newParentId := strOrNull (some c1over.id) } ∧
     (∀ (s : AppState) (reloaded : List Collection),
       (moveCollectionOk s reloaded).collections = reloaded)) :=
  ⟨⟨rfl, by decide, rfl⟩,
   dragEnd_uuid_only_validation c1event c1over
     rfl (by decide) (by decide) rfl rfl (by decide)⟩

/-! ## Claim C2 -/

theorem mapM_option_rel (g : α → Option β) :
    ∀ (l : List α) (r : List β), l.mapM g = some r →
      (∀ b ∈ r, ∃ a ∈ l, g a = some b) ∧ (∀ a ∈ l, ∃ b ∈ r, g a = some b) := by
  intro l
  induction l with
  | nil =>
    intro r h
    rw [List.mapM_nil] at h
    obtain rfl : ([] : List β) = r := by simpa using h
    exact ⟨fun b hb => absurd hb (List.not_mem_nil b), fun a ha => absurd ha (List.not_mem_nil a)⟩
  | cons a t ih =>
    intro r h
    rw [List.mapM_cons] at h
    cases hga : g a with
    | none => rw [hga] at h; cases h
    | some b =>
      rw [hga] at h
      cases hmt : t.mapM g with
      | none => rw [hmt] at h; cases h
      | some rt =>
        rw [hmt] at h
        obtain rfl : b :: rt = r := by simpa using h
        obtain ⟨ih1, ih2⟩ := ih rt hmt
        constructor
        · intro b0 hb0
          rcases List.mem_cons.mp hb0 with rfl | hb0t
          · exact ⟨a, List.mem_cons_self _ _, hga⟩
          · obtain ⟨a0, ha0, hg0⟩ := ih1 b0 hb0t
            exact ⟨a0, List.mem_cons_of_mem _ ha0, hg0⟩
        · intro a0 ha0
          rcases List.mem_cons.mp ha0 with rfl | ha0t
          · exact ⟨b, List.mem_cons_self _ _, hga⟩
          · obtain ⟨b0, hb0, hg0⟩ := ih2 a0 ha0t
            exact ⟨b0, List.mem_cons_of_mem _ hb0, hg0⟩

theorem recordGet_delete_self (o : List (String × α)) (k : String) :
    recordGet (recordDelete o k) k = none := by
  unfold recordGet
  have hfind : (recordDelete o k).find? (fun p => p.1 = k) = none := by
    rw [List.find?_eq_none]
    intro p hp
    have h2 := (List.mem_filter.mp hp).2
    simp only [decide_eq_true_eq] at h2 ⊢
    exact fun c => by simp [c] at h2
  rw [hfind]
  rfl

theorem recordGet_delete_other (o : List (String × α)) (k k' : String) (h : k' ≠ k) :
    recordGet (recordDelete o k) k' = recordGet o k' := by
  unfold recordGet recordDelete
  induction o with
  | nil => rfl
  | cons p rest ih =>
    by_cases hpk : p.1 = k
    · rw [List.filter_cons_of_neg (by simp [hpk]), List.find?_cons_of_neg _ (by
        simp only [decide_eq_true_eq]
        rw [hpk]
        exact Ne.symm h)]
      exact ih
    · rw [List.filter_cons_of_pos (by simp [hpk])]
      by_cases hpk' : p.1 = k'
      · rw [List.find?_cons_of_pos _ (by simp [hpk']),
          List.find?_cons_of_pos _ (by simp [hpk'])]
      · rw [List.find?_cons_of_neg _ (by simp [hpk']),
          List.find?_cons_of_neg _ (by simp [hpk'])]
        exact ih

theorem recordGet_foldl_delete (ids : List String) (o : List (String × α)) (k : String) :
    recordGet (ids.foldl (fun m i => recordDelete m i) o) k =
      if k ∈ ids then none else recordGet o k := by
  induction ids generalizing o with
  | nil => simp
  | cons i rest ih =>
    rw [List.foldl_cons, ih]
    by_cases hk : k ∈ rest
    · simp [hk]
    · by_cases hki : k = i
      · simp [hk, hki, recordGet_delete_self]
      · simp [hk, hki, recordGet_delete_other o i k hki]

theorem IsDesc_trans (cols : List Collection) {a b c : String}
    (h1 : IsDesc cols a b) (h2 : IsDesc cols b c) : IsDesc cols a c := by
  induction h2 with
  | refl => exact h1
  | step _ hc hp ih => exact IsDesc.step ih hc hp

/-- A success of the descendant walk lists its own root first. -/
theorem getDescendantIdsF_root (cols : List Collection) (fuel : Nat) (root : String)
    (D : List String) (h : getDescendantIdsF cols (fuel + 1) root = some D) :
    root ∈ D := by
  rw [getDescendantIdsF] at h
  cases hm : (cols.filter (fun c => c.parent_id = some root)).mapM
      (fun child => getDescendantIdsF cols fuel child.id) with
  | none => rw [hm] at h; cases h
  | some rs =>
    rw [hm] at h
    obtain rfl : root :: rs.flatten = D := by simpa using h
    exact List.mem_cons_self _ _

/-- Success of the walk characterizes membership: the collected ids are
exactly the reflexive-transitive children of the root. -/
theorem getDescendantIdsF_mem (cols : List Collection) :
    ∀ (fuel : Nat) (root : String) (D : List String),
      getDescendantIdsF cols fuel root = some D →
      ∀ x, x ∈ D ↔ IsDesc cols root x := by
  intro fuel
  induction fuel with
  | zero => intro root D h; cases h
  | succ n ih =>
    intro root D h x
    rw [getDescendantIdsF] at h
    cases hm : (cols.filter (fun c => c.parent_id = some root)).mapM
        (fun child => getDescendantIdsF cols n child.id) with
    | none => rw [hm] at h; cases h
    | some rs =>
      rw [hm] at h
      obtain rfl : root :: rs.flatten = D := by simpa using h
      obtain ⟨hm1, hm2⟩ := mapM_option_rel _ _ _ hm
      constructor
      · intro hx
        rcases List.mem_cons.mp hx with rfl | hxf
        · exact IsDesc.refl
        · obtain ⟨li, hli, hxli⟩ := List.mem_flatten.mp hxf
          obtain ⟨c, hc, hgc⟩ := hm1 li hli
          have hcm : c ∈ cols := List.mem_of_mem_filter hc
          have hcp : c.parent_id = some root := by
            simpa using List.of_mem_filter hc
          have hdesc : IsDesc cols c.id x := (ih c.id li hgc x).mp hxli
          exact IsDesc_trans cols (IsDesc.step IsDesc.refl hcm hcp) hdesc
      · intro hdesc
        -- closure: walk down the derivation
        induction hdesc with
        | refl => exact List.mem_cons_self _ _
        | step hd hc hp ihd =>
          rename_i p c
          rcases List.mem_cons.mp ihd with rfl | hpf
          · -- the parent is the root itself: c is a direct child
            have hcf : c ∈ cols.filter (fun d => d.parent_id = some p) :=
              List.mem_filter.mpr ⟨hc, by simp [hp]⟩
            obtain ⟨lc, hlc, hglc⟩ := hm2 c hcf
            have : c.id ∈ lc := by
              cases n with
              | zero => cases hglc
              | succ m => exact getDescendantIdsF_root cols m c.id lc hglc
            exact List.mem_cons_of_mem _ (List.mem_flatten.mpr ⟨lc, hlc, this⟩)
          · -- the parent sits inside some child's sublist
            obtain ⟨li, hli, hpli⟩ := List.mem_flatten.mp hpf
            obtain ⟨c0, hc0, hgc0⟩ := hm1 li hli
            have hcid : c.id ∈ li := by
              cases n with
              | zero => cases hgc0
              | succ m =>
                have hiff := ih c0.id li hgc0
                have hpdesc : IsDesc cols c0.id p := (hiff p).mp hpli
                exact (hiff c.id).mpr (IsDesc.step hpdesc hc hp)
            exact List.mem_cons_of_mem _ (List.mem_flatten.mpr ⟨li, hli, hcid⟩)

/-- C2: a successful `deleteCollection(C)` removes, in one state transition
computed from one `descendantIds` snapshot `D` (characterized below as exactly
`C` and its transitive children), every collection whose id is in `D`, the
cached request list of every id in `D` (others untouched), every open tab
whose request's `collection_id` lies in `D` (tabs without one stay open),
reassigns the active tab to the first remaining tab or `null` when it was
closed (keeping it when still open), and clears the selected-collection
pointer exactly when it pointed into `D`. -/
theorem deleteCollection_cascade (s : AppState) (C : String) (s' : AppState)
    (D : List String)
    (hD : getDescendantIdsF s.collections (s.collections.length + 1) C = some D)
    (hrun : deleteCollectionOk s C = some s')
    (hCne : C ≠ "") (hcolne : ∀ c ∈ s.collections, c.id ≠ "") :
    (∀ x, x ∈ D ↔ IsDesc s.collections C x) ∧
    s'.collections = s.collections.filter (fun c => ¬ D.contains c.id) ∧
    (∀ cid ∈ D, recordGet s'.collectionRequests cid = none) ∧
    (∀ cid, cid ∉ D → recordGet s'.collectionRequests cid =
      recordGet s.collectionRequests cid) ∧
    (∀ tab ∈ s.tabs, ∀ cid, tab.request.collection_id = some cid → cid ∈ D →
      tab ∉ s'.tabs) ∧
    (∀ tab ∈ s.tabs, (∀ cid, tab.request.collection_id = some cid → cid ∉ D) →
      tab ∈ s'.tabs) ∧
    (∀ tab ∈ s'.tabs, tab ∈ s.tabs) ∧
    ((∃ t ∈ s'.tabs, s.activeTabId = some t.id) → s'.activeTabId = s.activeTabId) ∧
    ((strTruthy s.activeTabId = true ∧ (∀ t ∈ s'.tabs, ¬ s.activeTabId = some t.id)) →
      s'.activeTabId = (s'.tabs.head?).map Tab.id) ∧
    (∀ x, s.selectedCollectionId = some x →
      (x ∈ D → s'.selectedCollectionId = none) ∧
      (x ∉ D → s'.selectedCollectionId = s.selectedCollectionId)) ∧
    (s.selectedCollectionId = none → s'.selectedCollectionId = none) := by
  have hiff := getDescendantIdsF_mem s.collections (s.collections.length + 1) C D hD
  have hshape : ∀ x ∈ D, x = C ∨ ∃ c ∈ s.collections, x = c.id := by
    intro x hx
    cases (hiff x).mp hx with
    | refl => exact Or.inl rfl
    | step _ hc _ => exact Or.inr ⟨_, hc, rfl⟩
  have hempty : "" ∉ D := by
    intro h0
    rcases hshape "" h0 with h1 | ⟨c, hc, h2⟩
    · exact hCne h1.symm
    · exact hcolne c hc h2.symm
  simp only [deleteCollectionOk, hD, Option.some.injEq] at hrun
  have htabs : s'.tabs = s.tabs.filter (fun tab =>
      ¬ strTruthy tab.request.collection_id ∨
        ¬ D.contains (tab.request.collection_id.getD "")) := by rw [← hrun]
  have hcols : s'.collections = s.collections.filter (fun c => ¬ D.contains c.id) := by
    rw [← hrun]
  have hcr : s'.collectionRequests =
      D.foldl (fun m collectionId => recordDelete m collectionId) s.collectionRequests := by
    rw [← hrun]
  have hsel : s'.selectedCollectionId =
      (if D.contains (s.selectedCollectionId.getD "") then none
       else s.selectedCollectionId) := by rw [← hrun]
  have hactP : s'.activeTabId =
      (if strTruthy s.activeTabId ∧
          ((s.tabs.filter (fun tab => ¬ strTruthy tab.request.collection_id ∨
            ¬ D.contains (tab.request.collection_id.getD ""))).find?
              (fun tab => some tab.id = s.activeTabId)).isNone then
        match s.tabs.filter (fun tab => ¬ strTruthy tab.request.collection_id ∨
            ¬ D.contains (tab.request.collection_id.getD "")) with
        | [] => none
        | t :: _ => some t.id
      else s.activeTabId) := by rw [← hrun]
  refine ⟨hiff, hcols, ?_, ?_, ?_, ?_, ?_, ?_, ?_, ?_, ?_⟩
  · intro cid hcid
    rw [hcr, recordGet_foldl_delete, if_pos hcid]
  · intro cid hcid
    rw [hcr, recordGet_foldl_delete, if_neg hcid]
  · intro tab _ cid hcid hcidD hmem
    rw [htabs] at hmem
    have hpred := (List.mem_filter.mp hmem).2
    have hne : cid ≠ "" := fun c => hempty (c ▸ hcidD)
    simp only [hcid, decide_eq_true_eq] at hpred
    rcases hpred with h1 | h2
    · exact h1 (by simp [strTruthy, hne])
    · exact h2 (by simpa using hcidD)
  · intro tab hmem hno
    rw [htabs]
    refine List.mem_filter.mpr ⟨hmem, ?_⟩
    simp only [decide_eq_true_eq]
    cases hc : tab.request.collection_id with
    | none => exact Or.inl (by simp [strTruthy])
    | some cid =>
      refine Or.inr ?_
      have := hno cid hc
      simpa using this
  · intro tab hmem
    rw [htabs] at hmem
    exact List.mem_of_mem_filter hmem
  · intro hex
    obtain ⟨t, ht, hta⟩ := hex
    rw [htabs] at ht
    have hsome : ((s.tabs.filter (fun tab => ¬ strTruthy tab.request.collection_id ∨
        ¬ D.contains (tab.request.collection_id.getD ""))).find?
          (fun tab => some tab.id = s.activeTabId)).isSome :=
      List.find?_isSome.mpr ⟨t, ht, by simp [hta.symm]⟩
    rw [hactP, if_neg]
    intro hcond
    rw [Option.isNone_iff_eq_none] at hcond
    rw [hcond.2] at hsome
    cases hsome
  · intro hcond
    obtain ⟨hstr, hnone⟩ := hcond
    have hfn : (s.tabs.filter (fun tab => ¬ strTruthy tab.request.collection_id ∨
        ¬ D.contains (tab.request.collection_id.getD ""))).find?
          (fun tab => some tab.id = s.activeTabId) = none := by
      rw [List.find?_eq_none]
      intro t ht
      simp only [decide_eq_true_eq]
      intro hc
      exact hnone t (by rw [htabs]; exact ht) hc.symm
    rw [hactP, if_pos ⟨hstr, by rw [hfn]; rfl⟩, htabs]
    cases hnl : s.tabs.filter (fun tab => ¬ strTruthy tab.request.collection_id ∨
        ¬ D.contains (tab.request.collection_id.getD "")) with
    | nil => rfl
    | cons t rest => rfl
  · intro x hx
    constructor
    · intro hxD
      rw [hsel, hx, if_pos (by simpa using hxD)]
    · intro hxD
      rw [hsel, hx, if_neg (by simpa using hxD)]
  · intro hx
    rw [hsel, hx, if_neg (by simpa using hempty)]

theorem deleteCollection_cascade_witness :
    (getDescendantIdsF c2s.collections (c2s.collections.length + 1) "p1" = some c2D ∧
     deleteCollectionOk c2s "p1" = some c2out ∧
     (∀ c ∈ c2s.collections, c.id ≠ "")) ∧
    ((∀ x, x ∈ c2D ↔ IsDesc c2s.collections "p1" x) ∧
     c2out.collections = c2s.collections.filter (fun c => ¬ c2D.contains c.id) ∧
     (∀ cid ∈ c2D, recordGet c2out.collectionRequests cid = none) ∧
     (∀ cid, cid ∉ c2D → recordGet c2out.collectionRequests cid =
       recordGet c2s.collectionRequests cid) ∧
     (∀ tab ∈ c2s.tabs, ∀ cid, tab.request.collection_id = some cid → cid ∈ c2D →
       tab ∉ c2out.tabs) ∧
     (∀ tab ∈ c2s.tabs, (∀ cid, tab.request.collection_id = some cid → cid ∉ c2D) →
       tab ∈ c2out.tabs) ∧
     (∀ tab ∈ c2out.tabs, tab ∈ c2s.tabs) ∧
     ((∃ t ∈ c2out.tabs, c2s.activeTabId = some t.id) →
       c2out.activeTabId = c2s.activeTabId) ∧
     ((strTruthy c2s.activeTabId = true ∧
        (∀ t ∈ c2out.tabs, ¬ c2s.activeTabId = some t.id)) →
       c2out.activeTabId = (c2out.tabs.head?).map Tab.id) ∧
     (∀ x, c2s.selectedCollectionId = some x →
       (x ∈ c2D → c2out.selectedCollectionId = none) ∧
       (x ∉ c2D → c2out.selectedCollectionId = c2s.selectedCollectionId)) ∧
     (c2s.selectedCollectionId = none → c2out.selectedCollectionId = none)) :=
  ⟨⟨by decide, by decide, by decide⟩,
   deleteCollection_cascade c2s "p1" c2out c2D (by decide) (by decide)
     (by decide) (by decide)⟩

/-! ## Claim C6 -/

theorem find?_unique (l : List α) (p : α → Bool) (a : α) (ha : a ∈ l) (hpa : p a)
    (huniq : ∀ b ∈ l, p b → b = a) : l.find? p = some a := by
  induction l with
  | nil => cases ha
  | cons x xs ih =>
    by_cases hpx : p x
    · rw [List.find?_cons_of_pos _ hpx, huniq x (List.mem_cons_self _ _) hpx]
    · rw [List.find?_cons_of_neg _ hpx]
      rcases List.mem_cons.mp ha with rfl | hxs
      · exact absurd hpa hpx
      · exact ih hxs (fun b hb hpb => huniq b (List.mem_cons_of_mem _ hb) hpb)

theorem find?_of_filter_singleton (l : List α) (p : α → Bool) (a : α)
    (h : l.filter p = [a]) : l.find? p = some a := by
  induction l with
  | nil => cases h
  | cons x xs ih =>
    by_cases hpx : p x
    · rw [List.filter_cons_of_pos hpx] at h
      rw [List.find?_cons_of_pos _ hpx]
      injection h with h1 _
      rw [h1]
    · rw [List.filter_cons_of_neg hpx] at h
      rw [List.find?_cons_of_neg _ hpx]
      exact ih h

theorem nodup_keys_unique (o : List (String × α)) (h : (o.map Prod.fst).Nodup) :
    ∀ p ∈ o, ∀ q ∈ o, p.1 = q.1 → p = q := by
  induction o with
  | nil => intro p hp; cases hp
  | cons a rest ih =>
    intro p hp q hq hk
    rcases List.mem_cons.mp hp with rfl | hp2
    · rcases List.mem_cons.mp hq with rfl | hq2
      · rfl
      · exact absurd (List.mem_map.mpr ⟨q, hq2, hk.symm⟩)
          (List.nodup_cons.mp (by simpa using h)).1
    · rcases List.mem_cons.mp hq with rfl | hq2
      · exact absurd (List.mem_map.mpr ⟨p, hp2, hk⟩)
          (List.nodup_cons.mp (by simpa using h)).1
      · exact ih (List.nodup_cons.mp (by simpa using h)).2 p hp2 q hq2 hk

theorem mem_recordSet (o : List (String × α)) (k : String) (v : α) (b : String × α)
    (hb : b ∈ recordSet o k v) : b = (k, v) ∨ (b ∈ o ∧ b.1 ≠ k) := by
  unfold recordSet at hb
  by_cases ha : o.any (fun p => p.1 = k)
  · rw [if_pos ha] at hb
    obtain ⟨p, hp, rfl⟩ := List.mem_map.mp hb
    by_cases hpk : p.1 = k
    · rw [if_pos hpk]; exact Or.inl rfl
    · rw [if_neg hpk]; exact Or.inr ⟨hp, hpk⟩
  · rw [if_neg ha] at hb
    rcases List.mem_append.mp hb with h1 | h2
    · refine Or.inr ⟨h1, ?_⟩
      intro hc
      exact ha (List.any_eq_true.mpr ⟨b, h1, by simp [hc]⟩)
    · exact Or.inl (List.mem_singleton.mp h2)

theorem recordSet_keys_nodup (o : List (String × α)) (k : String) (v : α)
    (h : (o.map Prod.fst).Nodup) : ((recordSet o k v).map Prod.fst).Nodup := by
  unfold recordSet
  by_cases ha : o.any (fun p => p.1 = k)
  · rw [if_pos ha, List.map_map]
    have heq : o.map (Prod.fst ∘ fun p => if p.1 = k then (k, v) else p) =
        o.map Prod.fst := by
      apply List.map_congr_left
      intro p _
      by_cases hpk : p.1 = k
      · simp [Function.comp, hpk]
      · simp [Function.comp, hpk]
    rw [heq]
    exact h
  · rw [if_neg ha, List.map_append]
    have hk : k ∉ o.map Prod.fst := by
      intro hc
      obtain ⟨p, hp, hpk⟩ := List.mem_map.mp hc
      exact ha (List.any_eq_true.mpr ⟨p, hp, by simp [hpk]⟩)
    simp [List.nodup_append, h, hk]

theorem recordGet_mem_entry (o : List (String × α)) (k : String) (v : α)
    (h : recordGet o k = some v) : (k, v) ∈ o := by
  unfold recordGet at h
  cases hf : o.find? (fun p => p.1 = k) with
  | none => rw [hf] at h; cases h
  | some p =>
    rw [hf] at h
    have hp1 : p.1 = k := by simpa using List.find?_some hf
    have hp2 : p.2 = v := by simpa using h
    have : p = (k, v) := Prod.ext hp1 hp2
    exact this ▸ List.mem_of_find?_eq_some hf

/-- Characterization of a successful `moveRequest` on a well-formed cache:
bucket contents, key uniqueness, and absence of the request id outside the
target bucket. -/
theorem moveRequestOk_spec (s : AppState) (rId X Y : String)
    (reqsX : List HttpRequest) (R : HttpRequest)
    (hkeys : (s.collectionRequests.map Prod.fst).Nodup)
    (hget : recordGet s.collectionRequests X = some reqsX)
    (hfilter : reqsX.filter (fun q => q.id = some rId) = [R])
    (hothers : ∀ p ∈ s.collectionRequests, p.1 ≠ X → ∀ q ∈ p.2, ¬ q.id = some rId)
    (hXY : X ≠ Y) :
    bucketOf (moveRequestOk s rId Y) X = reqsX.filter (fun r => ¬ r.id = some rId) ∧
    bucketOf (moveRequestOk s rId Y) Y =
      bucketOf s Y ++ [{ R with collection_id := some Y }] ∧
    (∀ Z, Z ≠ X → Z ≠ Y → bucketOf (moveRequestOk s rId Y) Z = bucketOf s Z) ∧
    (((moveRequestOk s rId Y).collectionRequests.map Prod.fst).Nodup) ∧
    recordGet (moveRequestOk s rId Y).collectionRequests Y =
      some (bucketOf s Y ++ [{ R with collection_id := some Y }]) ∧
    (∀ p ∈ (moveRequestOk s rId Y).collectionRequests, p.1 ≠ Y →
      ∀ q ∈ p.2, ¬ q.id = some rId) := by
  have hRmem : R ∈ reqsX ∧ R.id = some rId := by
    have : R ∈ reqsX.filter (fun q => q.id = some rId) := by
      rw [hfilter]; exact List.mem_singleton.mpr rfl
    exact ⟨List.mem_of_mem_filter this, by simpa using List.of_mem_filter this⟩
  have hXentry : (X, reqsX) ∈ s.collectionRequests := recordGet_mem_entry _ _ _ hget
  have hfind1 : s.collectionRequests.find?
      (fun p => p.2.any (fun r => r.id = some rId)) = some (X, reqsX) := by
    apply find?_unique _ _ _ hXentry
    · exact List.any_eq_true.mpr ⟨R, hRmem.1, by simp [hRmem.2]⟩
    · intro b hb hpb
      obtain ⟨q, hq, hqid⟩ := List.any_eq_true.mp hpb
      simp only [decide_eq_true_eq] at hqid
      by_cases hbX : b.1 = X
      · exact nodup_keys_unique _ hkeys b hb (X, reqsX) hXentry hbX
      · exact absurd hqid (hothers b hb hbX q hq)
  have hfind2 : reqsX.find? (fun r => r.id = some rId) = some R :=
    find?_of_filter_singleton _ _ _ hfilter
  have hm1 : (moveRequestOk s rId Y).collectionRequests =
      recordSet (recordSet s.collectionRequests X
          (reqsX.filter (fun r => ¬ r.id = some rId))) Y
        (((recordGet (recordSet s.collectionRequests X
            (reqsX.filter (fun r => ¬ r.id = some rId))) Y).getD []) ++
          [{ R with collection_id := some Y }]) := by
    simp only [moveRequestOk, hfind1, hfind2]
  have hucrY : recordGet (recordSet s.collectionRequests X
      (reqsX.filter (fun r => ¬ r.id = some rId))) Y = recordGet s.collectionRequests Y :=
    recordGet_set_other _ _ _ _ (fun c => hXY c.symm)
  refine ⟨?_, ?_, ?_, ?_, ?_, ?_⟩
  · unfold bucketOf
    rw [hm1, recordGet_set_other _ _ _ _ hXY, recordGet_set_self]
    rfl
  · unfold bucketOf
    rw [hm1, recordGet_set_self, hucrY]
    rfl
  · intro Z hZX hZY
    unfold bucketOf
    rw [hm1, recordGet_set_other _ _ _ _ hZY, recordGet_set_other _ _ _ _ hZX]
  · rw [hm1]
    exact recordSet_keys_nodup _ _ _ (recordSet_keys_nodup _ _ _ hkeys)
  · rw [hm1, recordGet_set_self, hucrY]
    rfl
  · intro p hp hpY q hq
    rw [hm1] at hp
    rcases mem_recordSet _ _ _ _ hp with rfl | ⟨hp2, _⟩
    · exact absurd rfl hpY
    · rcases mem_recordSet _ _ _ _ hp2 with rfl | ⟨hp3, hpX⟩
      · intro hc
        exact absurd hc (by simpa using List.of_mem_filter hq)
      · exact hothers p hp3 hpX q hq

/-- C6: with request `R` cached exactly once — in `X`'s bucket — a successful
`moveRequest(R, Y)` removes exactly that one entry from `X`'s cached list,
appends exactly one entry with `collection_id` updated to `Y` to `Y`'s list,
and leaves every other bucket unchanged; a subsequent successful
`moveRequest(R, X)` restores every bucket's contents up to order (the same
partition of requests among buckets). -/
theorem moveRequest_cache_partition (s : AppState) (rId X Y : String)
    (reqsX : List HttpRequest) (R : HttpRequest)
    (hkeys : (s.collectionRequests.map Prod.fst).Nodup)
    (hget : recordGet s.collectionRequests X = some reqsX)
    (hfilter : reqsX.filter (fun q => q.id = some rId) = [R])
    (hothers : ∀ p ∈ s.collectionRequests, p.1 ≠ X → ∀ q ∈ p.2, ¬ q.id = some rId)
    (hXY : X ≠ Y) (hRX : R.collection_id = some X) :
    (bucketOf s X).length = (bucketOf (moveRequestOk s rId Y) X).length + 1 ∧
    bucketOf (moveRequestOk s rId Y) X = (bucketOf s X).filter (fun r => ¬ r.id = some rId) ∧
    bucketOf (moveRequestOk s rId Y) Y =
      bucketOf s Y ++ [{ R with collection_id := some Y }] ∧
    (∀ Z, Z ≠ X → Z ≠ Y → bucketOf (moveRequestOk s rId Y) Z = bucketOf s Z) ∧
    (∀ Z, List.Perm (bucketOf (moveRequestOk (moveRequestOk s rId Y) rId X) Z)
      (bucketOf s Z)) := by
  obtain ⟨h1, h2, h3, h4, h5, h6⟩ := moveRequestOk_spec s rId X Y reqsX R
    hkeys hget hfilter hothers hXY
  have hbX : bucketOf s X = reqsX := by unfold bucketOf; rw [hget]; rfl
  have hRid : R.id = some rId := by
    have : R ∈ reqsX.filter (fun q => q.id = some rId) := by
      rw [hfilter]; exact List.mem_singleton.mpr rfl
    simpa using List.of_mem_filter this
  have hYnoR : ∀ q ∈ bucketOf s Y, ¬ q.id = some rId := by
    intro q hq
    unfold bucketOf at hq
    cases hgY : recordGet s.collectionRequests Y with
    | none => rw [hgY] at hq; cases hq
    | some reqsY =>
      rw [hgY] at hq
      exact hothers (Y, reqsY) (recordGet_mem_entry _ _ _ hgY)
        (fun c => hXY c.symm) q hq
  -- hypotheses for the second move, with the roles of the buckets swapped
  have hfilter' : (bucketOf s Y ++ [{ R with collection_id := some Y }]).filter
      (fun q => q.id = some rId) = [{ R with collection_id := some Y }] := by
    rw [List.filter_append]
    have hl : (bucketOf s Y).filter (fun q => q.id = some rId) = [] := by
      rw [List.filter_eq_nil_iff]
      intro q hq
      simpa using hYnoR q hq
    have hr : ([{ R with collection_id := some Y }] : List HttpRequest).filter
        (fun q => q.id = some rId) = [{ R with collection_id := some Y }] := by
      rw [List.filter_eq_self]
      intro q hq
      rw [List.mem_singleton.mp hq]
      simpa using hRid
    rw [hl, hr, List.nil_append]
  obtain ⟨g1, g2, g3, _, _, _⟩ := moveRequestOk_spec (moveRequestOk s rId Y) rId Y X
    (bucketOf s Y ++ [{ R with collection_id := some Y }])
    { R with collection_id := some Y } h4 h5 hfilter' h6 (fun c => hXY c.symm)
  have hRR : ({ { R with collection_id := some Y } with collection_id := some X }
      : HttpRequest) = R := by
    cases R
    simp only [HttpRequest.mk.injEq] at hRX ⊢
    simp_all
  have hco : reqsX.filter (fun r => ¬ r.id = some rId) =
      reqsX.filter (fun q => !(decide (q.id = some rId))) := by
    apply List.filter_congr
    intro q _
    simp
  refine ⟨?_, ?_, h2, h3, ?_⟩
  · rw [hbX, h1]
    have hperm := List.filter_append_perm (fun q => q.id = some rId) reqsX
    have hlen := hperm.length_eq
    rw [List.length_append, hfilter] at hlen
    rw [hco]
    simp only [List.length_singleton] at hlen
    omega
  · rw [hbX]
    exact h1
  · intro Z
    by_cases hZX : Z = X
    · subst hZX
      rw [g2, hRR, h1, hbX, hco, ← hfilter]
      exact (List.perm_append_comm).trans (List.filter_append_perm _ _)
    · by_cases hZY : Z = Y
      · subst hZY
        rw [g1, List.filter_append]
        have hl : (bucketOf s Z).filter (fun r => ¬ r.id = some rId) = bucketOf s Z :=
          List.filter_eq_self.mpr (fun q hq => by simpa using hYnoR q hq)
        have hr : ([{ R with collection_id := some Z }] : List HttpRequest).filter
            (fun r => ¬ r.id = some rId) = [] := by
          rw [List.filter_eq_nil_iff]
          intro q hq
          rw [List.mem_singleton.mp hq]
          simpa using hRid
        rw [hl, hr, List.append_nil]
      · rw [g3 Z hZY hZX, h3 Z hZX hZY]

theorem moveRequest_cache_partition_witness :
    ((c6s.collectionRequests.map Prod.fst).Nodup ∧
     recordGet c6s.collectionRequests "c1" = some [c6R, c6other] ∧
     [c6R, c6other].filter (fun q => q.id = some "r1") = [c6R] ∧
     (∀ p ∈ c6s.collectionRequests, p.1 ≠ "c1" → ∀ q ∈ p.2, ¬ q.id = some "r1") ∧
     c6R.collection_id = some "c1") ∧
    ((bucketOf c6s "c1").length = (bucketOf (moveRequestOk c6s "r1" "c2") "c1").length + 1 ∧
     bucketOf (moveRequestOk c6s "r1" "c2") "c1" =
       (bucketOf c6s "c1").filter (fun r => ¬ r.id = some "r1") ∧
     bucketOf (moveRequestOk c6s "r1" "c2") "c2" =
       bucketOf c6s "c2" ++ [{ c6R with collection_id := some "c2" }] ∧
     (∀ Z, Z ≠ "c1" → Z ≠ "c2" →
       bucketOf (moveRequestOk c6s "r1" "c2") Z = bucketOf c6s Z) ∧
     (∀ Z, List.Perm (bucketOf (moveRequestOk (moveRequestOk c6s "r1" "c2") "r1" "c1") Z)
       (bucketOf c6s Z))) :=
  ⟨⟨by decide, by decide, by decide, by decide, rfl⟩,
   moveRequest_cache_partition c6s "r1" "c1" "c2" [c6R, c6other] c6R
     (by decide) (by decide) (by decide) (by decide) (by decide) rfl⟩

/-! ## Claim C3 -/

theorem recordGet_none_keys (o : List (String × α)) (k : String)
    (h : recordGet o k = none) : ∀ q ∈ o, q.1 ≠ k := by
  intro q hq hc
  unfold recordGet at h
  cases hf : o.find? (fun p => p.1 = k) with
  | some p => rw [hf] at h; cases h
  | none => exact absurd (List.find?_eq_none.mp hf q hq) (by simp [hc])

theorem recordGet_foldl_set_absent (l : List (String × String))
    (base : List (String × String)) (k : String) (h : ∀ q ∈ l, q.1 ≠ k) :
    recordGet (l.foldl (fun acc p => recordSet acc p.1 p.2) base) k = recordGet base k := by
  induction l generalizing base with
  | nil => rfl
  | cons p rest ih =>
    rw [List.foldl_cons, ih _ (fun q hq => h q (List.mem_cons_of_mem _ hq))]
    exact recordGet_set_other base p.1 k p.2
      (fun c => h p (List.mem_cons_self _ _) c.symm)

theorem recordGet_mergeHeaders_absent (req auth : List (String × String)) (k : String)
    (h : recordGet req k = none) :
    recordGet (mergeHeaders req auth) k = recordGet auth k :=
  recordGet_foldl_set_absent req auth k (recordGet_none_keys req k h)

theorem recordGet_mergeHeaders_present (req : List (String × String)) :
    ∀ (auth : List (String × String)) (k v : String),
      (req.map Prod.fst).Nodup → recordGet req k = some v →
      recordGet (mergeHeaders req auth) k = some v := by
  induction req with
  | nil =>
    intro auth k v _ h
    cases h
  | cons p rest ih =>
    intro auth k v hnd h
    by_cases hp : p.1 = k
    · have hv : p.2 = v := by
        unfold recordGet at h
        rw [List.find?_cons_of_pos _ (by simp [hp])] at h
        simpa using h
      have hnok : ∀ q ∈ rest, q.1 ≠ k := by
        intro q hq hc
        have hmem : p.1 ∈ rest.map Prod.fst :=
          List.mem_map.mpr ⟨q, hq, by rw [hc, hp]⟩
        exact (List.nodup_cons.mp (by simpa using hnd)).1 hmem
      show recordGet (List.foldl (fun acc q => recordSet acc q.1 q.2) auth (p :: rest)) k = some v
      rw [List.foldl_cons, recordGet_foldl_set_absent rest _ k hnok]
      rw [show recordSet auth p.1 p.2 = recordSet auth k v by rw [hp, hv]]
      exact recordGet_set_self auth k v
    · have hrest : recordGet rest k = some v := by
        unfold recordGet at h ⊢
        rwa [List.find?_cons_of_neg _ (by simp [hp])] at h
      show recordGet (List.foldl (fun acc q => recordSet acc q.1 q.2) auth (p :: rest)) k = some v
      rw [List.foldl_cons]
      exact ih (recordSet auth p.1 p.2) k v
        ((List.nodup_cons.mp (by simpa using hnd)).2) hrest

theorem getCollectionAuthHeadersF_found (cols : List Collection) (fuel : Nat)
    (cid : Option String) (c : Collection)
    (htr : strTruthy cid = true) (hf : cols.find? (fun x => some x.id = cid) = some c)
    (hhdr : generateAuthHeaders c.auth ≠ []) :
    getCollectionAuthHeadersF cols (fuel + 1) cid = some (generateAuthHeaders c.auth) := by
  rw [getCollectionAuthHeadersF, if_neg (by simp [htr]), hf]
  simp only []
  rw [if_pos (by simpa [List.length_pos] using hhdr)]

theorem getCollectionAuthHeadersF_parent (cols : List Collection) (fuel : Nat)
    (cid : Option String) (c : Collection)
    (htr : strTruthy cid = true) (hf : cols.find? (fun x => some x.id = cid) = some c)
    (hhdr : generateAuthHeaders c.auth = []) (hp : strTruthy c.parent_id = true) :
    getCollectionAuthHeadersF cols (fuel + 1) cid =
      getCollectionAuthHeadersF cols fuel c.parent_id := by
  rw [getCollectionAuthHeadersF, if_neg (by simp [htr]), hf]
  simp only []
  rw [if_neg (by simp [hhdr]), if_pos hp]

theorem chain_auth_resolution (cols : List Collection) (aid : String) (A : Collection)
    (hfA : cols.find? (fun c => some c.id = some aid) = some A)
    (hA : generateAuthHeaders A.auth ≠ []) :
    ∀ ids : List String, isAncestorChain cols ids = true →
      ids.getLast? = some aid →
      ∀ b, ids.head? = some b → b ≠ "" →
      getCollectionAuthHeadersF cols ids.length (some b) =
        some (generateAuthHeaders A.auth) := by
  intro ids
  induction ids with
  | nil => intro hch; cases hch
  | cons x rest ih =>
    cases rest with
    | nil =>
      intro _ hlast b hhead hbne
      have hxb : x = b := by simpa using hhead
      have hba : b = aid := by rw [← hxb]; simpa using hlast
      have haidne : aid ≠ "" := by rw [← hba]; exact hbne
      rw [show ([x] : List String).length = 0 + 1 from rfl, hba]
      exact getCollectionAuthHeadersF_found cols 0 (some aid) A
        (by simp [strTruthy, haidne]) hfA hA
    | cons y rest2 =>
      intro hch hlast b hhead hbne
      rw [isAncestorChain] at hch
      cases hfx : cols.find? (fun c => some c.id = some x) with
      | none => rw [hfx] at hch; cases hch
      | some c =>
        rw [hfx] at hch
        simp only [Bool.and_eq_true, decide_eq_true_eq, beq_iff_eq, bne_iff_ne] at hch
        obtain ⟨⟨⟨hcauth, hcp⟩, hyne⟩, hch2⟩ := hch
        have hxb : x = b := by simpa using hhead
        have hxne : x ≠ "" := by rw [hxb]; exact hbne
        rw [← hxb]
        have hlast2 : (y :: rest2).getLast? = some aid := by
          rwa [List.getLast?_cons_cons] at hlast
        have hstep := getCollectionAuthHeadersF_parent cols (y :: rest2).length
          (some x) c (by simp [strTruthy, hxne]) hfx hcauth
          (by simp [hcp, strTruthy, hyne])
        rw [show (x :: y :: rest2).length = (y :: rest2).length + 1 from rfl, hstep, hcp]
        exact ih hch2 hlast2 y (by simp) hyne

/-- C3: with a parent chain from the request's collection `B` up to an
ancestor `A` holding bearer token `T`, along which no collection defines
usable auth, the headers handed to the send call are the request headers
spread over `{Authorization: Bearer T}`: an explicit request-level
`Authorization` header wins, and in its absence the inherited
`Authorization: Bearer T` is sent. -/
theorem auth_inheritance_and_override (cols : List Collection) (ids : List String)
    (request : HttpRequest) (B A : Collection) (T : String)
    (hreq : request.collection_id = some B.id)
    (hhead : ids.head? = some B.id) (hBne : B.id ≠ "")
    (hchain : isAncestorChain cols ids = true)
    (hlast : ids.getLast? = some A.id)
    (hfA : cols.find? (fun c => some c.id = some A.id) = some A)
    (hauthA : A.auth = some { type := "bearer", bearer := some { token := T } })
    (hT : T ≠ "")
    (hnd : (request.headers.map Prod.fst).Nodup) :
    sendRequestHeadersF ids.length cols request =
      some (mergeHeaders request.headers [("Authorization", "Bearer " ++ T)]) ∧
    (∀ X, recordGet request.headers "Authorization" = some X →
      recordGet (mergeHeaders request.headers [("Authorization", "Bearer " ++ T)])
        "Authorization" = some X) ∧
    (recordGet request.headers "Authorization" = none →
      recordGet (mergeHeaders request.headers [("Authorization", "Bearer " ++ T)])
        "Authorization" = some ("Bearer " ++ T)) := by
  have hgen : generateAuthHeaders A.auth = [("Authorization", "Bearer " ++ T)] := by
    simp [generateAuthHeaders, hauthA, hT]
  refine ⟨?_, ?_, ?_⟩
  · unfold sendRequestHeadersF
    rw [hreq, chain_auth_resolution cols A.id A hfA (by rw [hgen]; simp) ids hchain
      hlast B.id hhead hBne, hgen]
    rfl
  · intro X hX
    exact recordGet_mergeHeaders_present request.headers _ "Authorization" X hnd hX
  · intro hnoneX
    rw [recordGet_mergeHeaders_absent request.headers _ "Authorization" hnoneX]
    rfl

theorem auth_inheritance_and_override_witness :
    (c3req.collection_id = some c3B.id ∧
     isAncestorChain [c3A, c3B] ["b1", "a1"] = true ∧
     [c3A, c3B].find? (fun c => some c.id = some c3A.id) = some c3A) ∧
    (sendRequestHeadersF (["b1", "a1"] : List String).length [c3A, c3B] c3req =
       some (mergeHeaders c3req.headers [("Authorization", "Bearer " ++ "T")]) ∧
     (∀ X, recordGet c3req.headers "Authorization" = some X →
       recordGet (mergeHeaders c3req.headers [("Authorization", "Bearer " ++ "T")])
         "Authorization" = some X) ∧
     (recordGet c3req.headers "Authorization" = none →
       recordGet (mergeHeaders c3req.headers [("Authorization", "Bearer " ++ "T")])
         "Authorization" = some ("Bearer " ++ "T"))) :=
  ⟨⟨rfl, by decide, by decide⟩,
   auth_inheritance_and_override [c3A, c3B] ["b1", "a1"] c3req c3B c3A "T"
     rfl rfl (by decide) (by decide) rfl (by decide) rfl (by decide) (by decide)⟩

/-! ## Claim C8 -/

/-- C8 counterexample: `getCollectionAuthHeaders` has no visited-id set — it
recurses on `parent_id` unguarded — so on a corrupted list whose parent
pointers form a cycle with no usable auth along it, the resolution never
completes, whatever recursion budget it is given. -/
theorem authResolution_no_visited_guard_cx :
    AuthResolutionDiverges [c8cyc1, c8cyc2] (some "c1") := by
  have key : ∀ fuel, getCollectionAuthHeadersF [c8cyc1, c8cyc2] fuel (some "c1") = none ∧
      getCollectionAuthHeadersF [c8cyc1, c8cyc2] fuel (some "c2") = none := by
    intro fuel
    induction fuel with
    | zero => exact ⟨rfl, rfl⟩
    | succ n ih =>
      constructor
      · rw [getCollectionAuthHeadersF_parent [c8cyc1, c8cyc2] n (some "c1") c8cyc1
          (by decide) (by decide) (by decide) (by decide)]
        exact ih.2
      · rw [getCollectionAuthHeadersF_parent [c8cyc1, c8cyc2] n (some "c2") c8cyc2
          (by decide) (by decide) (by decide) (by decide)]
        exact ih.1
  exact fun fuel => (key fuel).1

/-- C8 (amended): the resolution recurses on `parent_id` with no visited-set
guard; it terminates exactly on collection lists whose parent relation is
well-founded — witnessed by any rank function strictly decreasing from child
to parent — with the recursion depth bounded by the rank of the starting id.
On a corrupted cyclic list with no usable auth along the cycle it diverges. -/
theorem authResolution_terminates_acyclic (cols : List Collection)
    (rank : String → Nat)
    (hrank : ∀ c ∈ cols, strTruthy c.parent_id = true →
      rank (c.parent_id.getD "") < rank c.id) :
    ∀ (cid : Option String) (fuel : Nat), rank (cid.getD "") < fuel →
      (getCollectionAuthHeadersF cols fuel cid).isSome := by
  intro cid fuel
  induction fuel generalizing cid with
  | zero => intro h; omega
  | succ n ih =>
    intro hlt
    rw [getCollectionAuthHeadersF]
    by_cases htr : strTruthy cid = true
    · rw [if_neg (by simp [htr])]
      cases hf : cols.find? (fun c => some c.id = cid) with
      | none => simp
      | some c =>
        simp only []
        by_cases hh : (generateAuthHeaders c.auth).length > 0
        · rw [if_pos hh]
          simp
        · rw [if_neg hh]
          by_cases hp : strTruthy c.parent_id = true
          · rw [if_pos hp]
            apply ih
            have hc : c ∈ cols := List.mem_of_find?_eq_some hf
            have hcid : some c.id = cid := by simpa using List.find?_some hf
            have h1 : rank (c.parent_id.getD "") < rank c.id := hrank c hc hp
            have h2 : rank c.id = rank (cid.getD "") := by rw [← hcid]; rfl
            omega
          · rw [if_neg hp]
            simp
    · rw [if_pos (by simpa using htr)]
      simp

theorem authResolution_terminates_acyclic_witness :
    (∀ c ∈ [c3A, c3B], strTruthy c.parent_id = true →
      (fun id => if id = "b1" then 1 else 0) (c.parent_id.getD "") <
        (fun id => if id = "b1" then 1 else 0) c.id) ∧
    (∀ (cid : Option String) (fuel : Nat),
      (fun id => if id = "b1" then 1 else 0) (cid.getD "") < fuel →
      (getCollectionAuthHeadersF [c3A, c3B] fuel cid).isSome) :=
  ⟨by decide,
   authResolution_terminates_acyclic [c3A, c3B]
     (fun id => if id = "b1" then 1 else 0) (by decide)⟩

/-! ## Claim C5 -/

/-- C5: loading a persisted request (a request with a backend id) switches to
an existing tab holding that id when one is open — without creating a tab —
and opens exactly one new tab otherwise; hence loading the same persisted
request a second time never grows the set of tabs holding it. -/
theorem loadRequest_no_duplicate_tabs (s : AppState) (id1 id2 : String)
    (request : HttpRequest) (r : String) (hid : request.id = some r) :
    ((∃ t ∈ s.tabs, t.request.id = some r) →
       (handleLoadRequest s id1 request).tabs = s.tabs ∧
       ∃ t ∈ s.tabs, t.request.id = some r ∧
         (handleLoadRequest s id1 request).activeTabId = some t.id) ∧
    ((∀ t ∈ s.tabs, ¬ t.request.id = some r) →
       ∃ newTab : Tab, (handleLoadRequest s id1 request).tabs = s.tabs ++ [newTab] ∧
         newTab.request.id = some r ∧
         (handleLoadRequest s id1 request).activeTabId = some newTab.id) ∧
    ((handleLoadRequest (handleLoadRequest s id1 request) id2 request).tabs.filter
        (fun t => t.request.id = some r)).length =
      ((handleLoadRequest s id1 request).tabs.filter
        (fun t => t.request.id = some r)).length := by
  have hfound : ∀ (s0 : AppState) (nid : String) (e : Tab),
      s0.tabs.find? (fun tab => tab.request.id = request.id) = some e →
      handleLoadRequest s0 nid request = { s0 with activeTabId := some e.id } := by
    intro s0 nid e hf
    rw [handleLoadRequest, hf]
  have hnotfound : ∀ (s0 : AppState) (nid : String),
      s0.tabs.find? (fun tab => tab.request.id = request.id) = none →
      handleLoadRequest s0 nid request = addTab s0 nid (some request) none := by
    intro s0 nid hf
    rw [handleLoadRequest, hf]
  have hstep : ∀ (s0 : AppState) (nid : String),
      (∃ t ∈ s0.tabs, t.request.id = some r) →
        (handleLoadRequest s0 nid request).tabs = s0.tabs ∧
        ∃ t ∈ s0.tabs, t.request.id = some r ∧
          (handleLoadRequest s0 nid request).activeTabId = some t.id := by
    intro s0 nid hex
    obtain ⟨t, ht, htr⟩ := hex
    have hsome : (s0.tabs.find? (fun tab => tab.request.id = request.id)).isSome :=
      List.find?_isSome.mpr ⟨t, ht, by simp [htr, hid]⟩
    cases hf : s0.tabs.find? (fun tab => tab.request.id = request.id) with
    | none => rw [hf] at hsome; simp at hsome
    | some e =>
      have he : e ∈ s0.tabs := List.mem_of_find?_eq_some hf
      have hep : e.request.id = request.id := by simpa using List.find?_some hf
      rw [hfound s0 nid e hf]
      exact ⟨rfl, e, he, by rw [hep, hid], rfl⟩
  have hfresh : ∀ (s0 : AppState) (nid : String),
      (∀ t ∈ s0.tabs, ¬ t.request.id = some r) →
        ∃ newTab : Tab, (handleLoadRequest s0 nid request).tabs = s0.tabs ++ [newTab] ∧
          newTab.request.id = some r ∧
          (handleLoadRequest s0 nid request).activeTabId = some newTab.id := by
    intro s0 nid hnone
    have hf : s0.tabs.find? (fun tab => tab.request.id = request.id) = none := by
      rw [List.find?_eq_none]
      intro t ht
      simp only [decide_eq_true_eq, hid]
      exact hnone t ht
    rw [hnotfound s0 nid hf]
    refine ⟨_, rfl, ?_, rfl⟩
    show ({ request with
      collection_id := jsOr none request.collection_id } : HttpRequest).id = some r
    exact hid
  refine ⟨hstep s id1, hfresh s id1, ?_⟩
  have hhas : ∃ t ∈ (handleLoadRequest s id1 request).tabs, t.request.id = some r := by
    by_cases hex : ∃ t ∈ s.tabs, t.request.id = some r
    · obtain ⟨heq, t, ht, htr, _⟩ := hstep s id1 hex
      exact ⟨t, by rw [heq]; exact ht, htr⟩
    · push_neg at hex
      obtain ⟨newTab, heq, hnid, _⟩ := hfresh s id1 (fun t ht hc => (hex t ht) hc)
      exact ⟨newTab, by
        rw [heq]
        exact List.mem_append_right _ (List.mem_singleton.mpr rfl), hnid⟩
  obtain ⟨heq2, _⟩ := hstep (handleLoadRequest s id1 request) id2 hhas
  rw [heq2]

/-! ## Claim C7 -/

/-- C7 counterexample: when the same request id is listed by two cache
buckets, `renameRequest` stops at the first bucket (`break`), leaving the
second bucket's copy with the old name — the rename does not reach every
bucket that lists the id. -/
theorem renameRequest_fanout_cx :
    (c7bad.collectionRequests.map Prod.fst).Nodup ∧
    recordGet (renameRequestOk c7bad "r1" "new").collectionRequests "c2" =
      some [c7req2] ∧
    c7req2.id = some "r1" ∧ c7req2.name = "old" := by decide

/-- C7 (amended): provided the request id is listed by at most one cache
bucket (the invariant the store otherwise maintains), a successful
`renameRequest` updates the name in every cache bucket entry carrying that id
and in every open tab holding it, including the tab display name, all in the
one `set` transition. -/
theorem renameRequest_fanout (s : AppState) (r n : String)
    (huniq : ∀ p ∈ s.collectionRequests, p.2.any (fun q => q.id = some r) →
      ∀ p' ∈ s.collectionRequests, p'.2.any (fun q => q.id = some r) → p.1 = p'.1) :
    (∀ k reqs, recordGet (renameRequestOk s r n).collectionRequests k = some reqs →
       ∀ q ∈ reqs, q.id = some r → q.name = n) ∧
    (∀ tab ∈ (renameRequestOk s r n).tabs, tab.request.id = some r →
       tab.name = n ∧ tab.request.name = n) := by
  constructor
  · intro k reqs hk q hq hqid
    cases hf : s.collectionRequests.find? (fun p => p.2.any (fun q => q.id = some r)) with
    | none =>
      have hcr : (renameRequestOk s r n).collectionRequests = s.collectionRequests := by
        rw [renameRequestOk, hf]
      rw [hcr] at hk
      obtain ⟨p, hpf⟩ : ∃ p, s.collectionRequests.find? (fun p => p.1 = k) = some p := by
        unfold recordGet at hk
        cases hfk : s.collectionRequests.find? (fun p => p.1 = k) with
        | none => rw [hfk] at hk; cases hk
        | some p => exact ⟨p, rfl⟩
      have hpm : p ∈ s.collectionRequests := List.mem_of_find?_eq_some hpf
      have hp2 : p.2 = reqs := by
        unfold recordGet at hk
        rw [hpf] at hk
        simpa using hk
      have : ¬ (p.2.any (fun q => q.id = some r)) := by
        have := List.find?_eq_none.mp hf p hpm
        simpa using this
      rw [hp2] at this
      exact absurd (List.any_eq_true.mpr ⟨q, hq, by simp [hqid]⟩) this
    | some entry =>
      have hcr : (renameRequestOk s r n).collectionRequests =
          recordSet s.collectionRequests entry.1
            (entry.2.map (fun request =>
              if request.id = some r then { request with name := n } else request)) := by
        rw [renameRequestOk, hf]
      rw [hcr] at hk
      by_cases hke : k = entry.1
      · subst hke
        rw [recordGet_set_self] at hk
        obtain rfl := Option.some.inj hk
        obtain ⟨q0, _, rfl⟩ := List.mem_map.mp hq
        by_cases hq0 : q0.id = some r
        · simp [hq0]
        · rw [if_neg hq0] at hqid ⊢
          exact absurd hqid hq0
      · rw [recordGet_set_other _ _ _ _ hke] at hk
        obtain ⟨p, hpf⟩ : ∃ p, s.collectionRequests.find? (fun p => p.1 = k) = some p := by
          unfold recordGet at hk
          cases hfk : s.collectionRequests.find? (fun p => p.1 = k) with
          | none => rw [hfk] at hk; cases hk
          | some p => exact ⟨p, rfl⟩
        have hpm : p ∈ s.collectionRequests := List.mem_of_find?_eq_some hpf
        have hpk : p.1 = k := by simpa using List.find?_some hpf
        have hp2 : p.2 = reqs := by
          unfold recordGet at hk
          rw [hpf] at hk
          simpa using hk
        have hpany : p.2.any (fun q => q.id = some r) := by
          rw [hp2]
          exact List.any_eq_true.mpr ⟨q, hq, by simp [hqid]⟩
        have hem : entry ∈ s.collectionRequests := List.mem_of_find?_eq_some hf
        have heany : entry.2.any (fun q => q.id = some r) := by
          simpa using List.find?_some hf
        have hpe : p.1 = entry.1 := huniq p hpm hpany entry hem heany
        exact absurd (show k = entry.1 by rw [← hpk]; exact hpe) hke
  · intro tab htab hid
    have htabs : (renameRequestOk s r n).tabs = s.tabs.map (fun t =>
        if t.request.id = some r then
          { t with name := n, request := { t.request with name := n } }
        else t) := rfl
    rw [htabs] at htab
    obtain ⟨t0, _, _, rfl⟩ := mem_map_ite_reqid s.tabs r _ tab htab hid
    exact ⟨rfl, rfl⟩

theorem loadRequest_no_duplicate_tabs_witness :
    c5req.id = some "r1" ∧
    (((∃ t ∈ baseState.tabs, t.request.id = some "r1") →
       (handleLoadRequest baseState "t1" c5req).tabs = baseState.tabs ∧
       ∃ t ∈ baseState.tabs, t.request.id = some "r1" ∧
         (handleLoadRequest baseState "t1" c5req).activeTabId = some t.id) ∧
     ((∀ t ∈ baseState.tabs, ¬ t.request.id = some "r1") →
       ∃ newTab : Tab, (handleLoadRequest baseState "t1" c5req).tabs = baseState.tabs ++ [newTab] ∧
         newTab.request.id = some "r1" ∧
         (handleLoadRequest baseState "t1" c5req).activeTabId = some newTab.id) ∧
     ((handleLoadRequest (handleLoadRequest baseState "t1" c5req) "t2" c5req).tabs.filter
         (fun t => t.request.id = some "r1")).length =
       ((handleLoadRequest baseState "t1" c5req).tabs.filter
         (fun t => t.request.id = some "r1")).length) :=
  ⟨rfl, loadRequest_no_duplicate_tabs baseState "t1" "t2" c5req "r1" rfl⟩

theorem renameRequest_fanout_witness :
    (∀ p ∈ c7good.collectionRequests, p.2.any (fun q => q.id = some "r1") →
       ∀ p' ∈ c7good.collectionRequests, p'.2.any (fun q => q.id = some "r1") → p.1 = p'.1) ∧
    ((∀ k reqs, recordGet (renameRequestOk c7good "r1" "new").collectionRequests k = some reqs →
        ∀ q ∈ reqs, q.id = some "r1" → q.name = "new") ∧
     (∀ tab ∈ (renameRequestOk c7good "r1" "new").tabs, tab.request.id = some "r1" →
        tab.name = "new" ∧ tab.request.name = "new")) :=
  ⟨by decide, renameRequest_fanout c7good "r1" "new" (by decide)⟩

theorem loading_cleared_on_both_paths_witness :
    (∃ t ∈ c9s.tabs, t.id = "t1") ∧
    ((∀ u ∈ c9out.1.tabs, u.id = "t1" → u.loading = false) ∧
     (c9out.2 = true ↔ ∃ e, (Except.ok c9resp : Except String HttpResponse) = Except.error e) ∧
     recordGet (loadCollectionRequestsF baseState "c" (Except.error "boom")).collectionRequestsLoading "c"
       = some false) :=
  ⟨by decide,
   loading_cleared_on_both_paths 1 c9s "t1" (Except.ok c9resp) c9out.1 c9out.2
     (by decide) (by decide) baseState "c" (Except.error "boom")⟩

end Geni
